import Mathlib

/-!
Verification development for the corkboard extension.

The definitions below are a shallow embedding of the TypeScript sources:
`src/src/CorkboardDataManager.ts` (board/card/link state store with
undo/redo history), the freeform-drag snapping and commit-order code
(`snapAxis`, `getSnappedPosition`, `commitFreeformOrder`), the freeform
zoom module (`zoomBy` / `applyZoom` / `clamp` / `round`), and the
connector anchor picker (`pickAnchors` in `webview/connectors.ts`).

JavaScript numbers are modelled as rationals (`Rat`).  For the
geometric properties treated below (edge snapping, anchor picking, row
ordering, history/state bookkeeping) the comparisons involved are exact
at the inputs used, so the rational model agrees with the source's
IEEE-754 doubles.  The zoom module's two-decimal `Math.round` is the
exception: at half-way points the double pipeline and exact rational
arithmetic can round differently (for example `(1 + 0.005) * 100`
evaluates to `100.49999999999999` as doubles and rounds to `100`, while
the exact value `100.5` rounds half-up to `101`), so no theorem about
the zoom round trip is stated over this model.  JavaScript
objects used as string-keyed records (`rootConfig.boards`) are modelled
as insertion-ordered association lists with unique keys.  `Array.sort`
(required to be stable by the ECMAScript specification) is modelled as a
stable insertion sort on the comparator taken from the source.
Exceptions thrown for an unloaded configuration are modelled as an
unreachable identity branch; every theorem that touches those operations
assumes a loaded, well-formed root configuration, under which the branch
is never taken.
-/

namespace Corkboard

/-- Content-space point, `{ x, y }` in the source. -/
structure Position where
  x : Rat
  y : Rat
deriving DecidableEq

/-- `viewMode` field of a board: one of `grid`, `freeform`, `text`. -/
inductive ViewMode where
  | grid
  | freeform
  | text
deriving DecidableEq

/-- `cardHeight` preset of a board: one of `small`, `medium`, `large`. -/
inductive CardHeight where
  | small
  | medium
  | large
deriving DecidableEq

/-- `CardData` from `src/src/types.ts`. -/
structure CardData where
  id : String
  filePath : String
  synopsis : Option String
  label : Option String
  status : Option String
  order : Int
  position : Option Position
deriving DecidableEq

/-- `LinkData` from `src/src/types.ts`. -/
structure LinkData where
  id : String
  fromId : String
  toId : String
  label : String
deriving DecidableEq

/-- `LabelDefinition` from `src/src/types.ts`. -/
structure LabelDefinition where
  name : String
  color : String
deriving DecidableEq

/-- `cardSize` record of a board. -/
structure CardSize where
  width : Rat
  height : Rat
deriving DecidableEq

/-- `CorkboardConfig` from `src/src/types.ts`: one board. -/
structure Board where
  viewMode : ViewMode
  gridColumns : Int
  cardHeight : CardHeight
  cardSize : CardSize
  cards : List CardData
  links : List LinkData
  labelColors : List LabelDefinition
  statusOptions : List String
deriving DecidableEq

/-- `CorkboardRootConfig` (version tag, constantly 2, omitted): the active
board name plus the name-to-board record, modelled as an
insertion-ordered association list. -/
structure RootConfig where
  activeBoard : String
  boards : List (String × Board)
deriving DecidableEq

/-- Record lookup `obj[k]`: first entry with the given key. -/
def lookupA {β : Type} : List (String × β) → String → Option β
  | [], _ => none
  | (k', v) :: t, k => if k' = k then some v else lookupA t k

/-- Record write `obj[k] = v`: update the entry in place if the key is
present, otherwise append a new entry (JavaScript insertion order). -/
def setKeyA {β : Type} : List (String × β) → String → β → List (String × β)
  | [], k, v => [(k, v)]
  | (k', v') :: t, k, v =>
    if k' = k then (k', v) :: t else (k', v') :: setKeyA t k v

/-- Record delete `delete obj[k]`. -/
def eraseKeyA {β : Type} (l : List (String × β)) (k : String) : List (String × β) :=
  l.filter (fun e => e.1 ≠ k)

/-- `createDefaultBoardConfig()` from `src/src/types.ts`. -/
def createDefaultBoardConfig : Board where
  viewMode := ViewMode.grid
  gridColumns := 4
  cardHeight := CardHeight.medium
  cardSize := { width := 200, height := 150 }
  cards := []
  links := []
  labelColors :=
    [ { name := "赤", color := "#e74c3c" }
    , { name := "オレンジ", color := "#e67e22" }
    , { name := "黄", color := "#f1c40f" }
    , { name := "緑", color := "#2ecc71" }
    , { name := "青", color := "#3498db" }
    , { name := "紫", color := "#9b59b6" } ]
  statusOptions := ["未着手", "下書き", "推敲中", "完成"]

/-- `createDefaultConfig()` from `src/src/types.ts`. -/
def createDefaultConfig : RootConfig where
  activeBoard := "メインボード"
  boards := [("メインボード", createDefaultBoardConfig)]

/-- In-memory state of `CorkboardDataManager`: the root configuration,
the two history stacks, the debounced-save flag (`saveTimeout` set), and
the `isRestoring` latch.  `this.config` always aliases
`rootConfig.boards[rootConfig.activeBoard]` in the source, so it is not
modelled separately. -/
structure ManagerState where
  root : RootConfig
  undoStack : List RootConfig
  redoStack : List RootConfig
  pendingSave : Bool
  isRestoring : Bool
deriving DecidableEq

/-- `maxHistory` of `CorkboardDataManager`. -/
def maxHistory : Nat := 100

/-- `pushHistory()`: unless restoring, push a snapshot of the current
root onto the undo stack (evicting the oldest entry beyond
`maxHistory`) and clear the redo stack. -/
def pushHistory (st : ManagerState) : ManagerState :=
  if st.isRestoring then st
  else
    let s := st.undoStack ++ [st.root]
    { st with
        undoStack := if s.length > maxHistory then s.drop 1 else s
        redoStack := [] }

/-- `scheduleSave()`: arm the debounced save. -/
def scheduleSave (st : ManagerState) : ManagerState :=
  { st with pendingSave := true }

/-- `getConfig()`: the active board (the source throws when no
configuration is loaded; for a loaded well-formed root this is always
`some`). -/
def getConfig? (st : ManagerState) : Option Board :=
  lookupA st.root.boards st.root.activeBoard

/-- Write back the active board (the source mutates the aliased
`this.config` object in place). -/
def setActiveBoard (st : ManagerState) (b : Board) : ManagerState :=
  { st with
      root := { st.root with
                  boards := setKeyA st.root.boards st.root.activeBoard b } }

/-- Replace the first element satisfying `p` (the source mutates the
object returned by `Array.prototype.find`). -/
def updateFirst {α : Type} (p : α → Bool) (f : α → α) : List α → List α
  | [] => []
  | x :: t => if p x then f x :: t else x :: updateFirst p f t

/-- `addCard(filePath)`: return the existing card for a duplicate file
path, otherwise snapshot history, append a card with
`order = cards.length`, and schedule a save.  The generated UUID is
passed in as `newId`. -/
def addCard (fp newId : String) (st : ManagerState) : ManagerState × Option CardData :=
  match getConfig? st with
  | none => (st, none)
  | some config =>
    match config.cards.find? (fun c => c.filePath == fp) with
    | some existing => (st, some existing)
    | none =>
      let st1 := pushHistory st
      let card : CardData :=
        { id := newId, filePath := fp, synopsis := none, label := none
          status := none, order := (config.cards.length : Int), position := none }
      let config' := { config with cards := config.cards ++ [card] }
      (scheduleSave (setActiveBoard st1 config'), some card)

/-- Stable insertion (the later-scanned element goes after equal ones),
for the stable `Array.prototype.sort`. -/
def insertCmp {α : Type} (cmp : α → α → Rat) (x : α) : List α → List α
  | [] => [x]
  | y :: ys => if cmp x y ≤ 0 then x :: y :: ys else y :: insertCmp cmp x ys

/-- Stable sort by a JavaScript comparator. -/
def sortCmp {α : Type} (cmp : α → α → Rat) : List α → List α
  | [] => []
  | x :: xs => insertCmp cmp x (sortCmp cmp xs)

/-- Comparator `(a, b) => a.order - b.order`. -/
def orderCmp (a b : CardData) : Rat :=
  (a.order : Rat) - (b.order : Rat)

/-- The `forEach((c, i) => { c.order = i; })` renumbering pass, indexed
from `i`. -/
def renumberFrom (i : Int) : List CardData → List CardData
  | [] => []
  | c :: t => { c with order := i } :: renumberFrom (i + 1) t

/-- The `forEach((c, i) => { c.order = i; })` renumbering pass. -/
def renumber (cards : List CardData) : List CardData :=
  renumberFrom 0 cards

/-- `removeCard(cardId)`: when the card exists, snapshot history, drop
the card, drop every link whose `fromId` or `toId` is the card, sort the
survivors by their prior `order` and renumber them `0..N-1`, then
schedule a save. -/
def removeCard (cardId : String) (st : ManagerState) : ManagerState :=
  match getConfig? st with
  | none => st
  | some config =>
    if config.cards.any (fun c => c.id == cardId) then
      let st1 := pushHistory st
      let cards1 := config.cards.filter (fun c => c.id != cardId)
      let links1 := config.links.filter (fun l => l.fromId != cardId && l.toId != cardId)
      let config' := { config with cards := renumber (sortCmp orderCmp cards1), links := links1 }
      scheduleSave (setActiveBoard st1 config')
    else st

/-- `Partial<CardData>` for `updateCard`. -/
structure CardChanges where
  id : Option String := none
  filePath : Option String := none
  synopsis : Option (Option String) := none
  label : Option (Option String) := none
  status : Option (Option String) := none
  order : Option Int := none
  position : Option (Option Position) := none
deriving DecidableEq

/-- The `entries.some(([key, value]) => card[key] !== value)` check.
All fields except `position` are primitives (or `null`) and `!==` is
value inequality on them.  A `position` of `null` compares by value
(`null === null`), but a non-null `{x, y}` object received through the
message boundary is always a freshly deserialized object, so the `!==`
reference comparison reports a change regardless of its coordinates. -/
def cardHasChange (card : CardData) (ch : CardChanges) : Bool :=
  ch.id.any (fun v => v != card.id) ||
  ch.filePath.any (fun v => v != card.filePath) ||
  ch.synopsis.any (fun v => v != card.synopsis) ||
  ch.label.any (fun v => v != card.label) ||
  ch.status.any (fun v => v != card.status) ||
  ch.order.any (fun v => v != card.order) ||
  (match ch.position with
   | none => false
   | some none => card.position != none
   | some (some _) => true)

/-- `Object.assign(card, changes)`. -/
def applyCardChanges (card : CardData) (ch : CardChanges) : CardData where
  id := ch.id.getD card.id
  filePath := ch.filePath.getD card.filePath
  synopsis := ch.synopsis.getD card.synopsis
  label := ch.label.getD card.label
  status := ch.status.getD card.status
  order := ch.order.getD card.order
  position := ch.position.getD card.position

/-- `updateCard(cardId, changes)`: find the card; when some supplied
field differs, snapshot history, assign the changes, schedule a save. -/
def updateCard (cardId : String) (ch : CardChanges) (st : ManagerState) : ManagerState :=
  match getConfig? st with
  | none => st
  | some config =>
    match config.cards.find? (fun c => c.id == cardId) with
    | none => st
    | some card =>
      if cardHasChange card ch then
        let st1 := pushHistory st
        let config' :=
          { config with
              cards := updateFirst (fun c => c.id == cardId) (fun c => applyCardChanges c ch) config.cards }
        scheduleSave (setActiveBoard st1 config')
      else st

/-- `addLink(link)`: snapshot history, append the link, schedule a save
(the source performs no identity or duplicate check). -/
def addLink (link : LinkData) (st : ManagerState) : ManagerState :=
  match getConfig? st with
  | none => st
  | some config =>
    let st1 := pushHistory st
    scheduleSave (setActiveBoard st1 { config with links := config.links ++ [link] })

/-- `Partial<LinkData>` for `updateLink`. -/
structure LinkChanges where
  id : Option String := none
  fromId : Option String := none
  toId : Option String := none
  label : Option String := none
deriving DecidableEq

/-- Changed-field check of `updateLink` (all fields are strings). -/
def linkHasChange (link : LinkData) (ch : LinkChanges) : Bool :=
  ch.id.any (fun v => v != link.id) ||
  ch.fromId.any (fun v => v != link.fromId) ||
  ch.toId.any (fun v => v != link.toId) ||
  ch.label.any (fun v => v != link.label)

/-- `Object.assign(link, changes)`. -/
def applyLinkChanges (link : LinkData) (ch : LinkChanges) : LinkData where
  id := ch.id.getD link.id
  fromId := ch.fromId.getD link.fromId
  toId := ch.toId.getD link.toId
  label := ch.label.getD link.label

/-- `updateLink(linkId, changes)`. -/
def updateLink (linkId : String) (ch : LinkChanges) (st : ManagerState) : ManagerState :=
  match getConfig? st with
  | none => st
  | some config =>
    match config.links.find? (fun l => l.id == linkId) with
    | none => st
    | some link =>
      if linkHasChange link ch then
        let st1 := pushHistory st
        let config' :=
          { config with
              links := updateFirst (fun l => l.id == linkId) (fun l => applyLinkChanges l ch) config.links }
        scheduleSave (setActiveBoard st1 config')
      else st

/-- `removeLink(linkId)`. -/
def removeLink (linkId : String) (st : ManagerState) : ManagerState :=
  match getConfig? st with
  | none => st
  | some config =>
    if config.links.any (fun l => l.id == linkId) then
      let st1 := pushHistory st
      scheduleSave (setActiveBoard st1 { config with links := config.links.filter (fun l => l.id != linkId) })
    else st

/-- The `cardIds.forEach((id, index) => ...)` loop of `reorderCards`. -/
def applyReorder (cards : List CardData) (ids : List String) : List CardData :=
  ids.enum.foldl
    (fun cs e => updateFirst (fun c => c.id == e.2) (fun c => { c with order := (e.1 : Int) }) cs)
    cards

/-- `reorderCards(cardIds)`: snapshot history unconditionally, assign
`order := index` to each listed card, schedule a save. -/
def reorderCards (ids : List String) (st : ManagerState) : ManagerState :=
  match getConfig? st with
  | none => st
  | some config =>
    let st1 := pushHistory st
    scheduleSave (setActiveBoard st1 { config with cards := applyReorder config.cards ids })

/-- `setViewMode(mode)`: no-op when unchanged, otherwise snapshot, set,
schedule a save. -/
def setViewMode (mode : ViewMode) (st : ManagerState) : ManagerState :=
  match getConfig? st with
  | none => st
  | some config =>
    if config.viewMode = mode then st
    else
      let st1 := pushHistory st
      scheduleSave (setActiveBoard st1 { config with viewMode := mode })

/-- `setGridColumns(columns)`. -/
def setGridColumns (columns : Int) (st : ManagerState) : ManagerState :=
  match getConfig? st with
  | none => st
  | some config =>
    if config.gridColumns = columns then st
    else
      let st1 := pushHistory st
      scheduleSave (setActiveBoard st1 { config with gridColumns := columns })

/-- `setCardHeight(height)`. -/
def setCardHeight (height : CardHeight) (st : ManagerState) : ManagerState :=
  match getConfig? st with
  | none => st
  | some config =>
    if config.cardHeight = height then st
    else
      let st1 := pushHistory st
      scheduleSave (setActiveBoard st1 { config with cardHeight := height })

/-- `applySnapshot(snapshot)`: install the snapshot as the root, then
re-resolve the active board: if the snapshot's active board is missing,
fall back to `Object.keys(boards)[0] || 'メインボード'`, synthesizing a
default board when even that is absent. -/
def applySnapshot (st : ManagerState) (snap : RootConfig) : ManagerState :=
  match lookupA snap.boards snap.activeBoard with
  | some _ => { st with root := snap }
  | none =>
    let k0 := ((snap.boards.map Prod.fst).headD "")
    let fallback := if k0 = "" then "メインボード" else k0
    match lookupA snap.boards fallback with
    | some _ => { st with root := { snap with activeBoard := fallback } }
    | none =>
      { st with
          root := { activeBoard := fallback
                    boards := setKeyA snap.boards fallback createDefaultBoardConfig } }

/-- `undo()`: pop the newest undo snapshot, push the current root onto
redo, and apply the snapshot (with `isRestoring` latched around the
application and an immediate save afterwards).  Returns whether anything
was undone. -/
def undo (st : ManagerState) : ManagerState × Bool :=
  match st.undoStack.getLast? with
  | none => (st, false)
  | some snapshot =>
    let st1 := { st with
                   undoStack := st.undoStack.dropLast
                   redoStack := st.redoStack ++ [st.root] }
    (applySnapshot st1 snapshot, true)

/-- `redo()`: the mirror of `undo`. -/
def redo (st : ManagerState) : ManagerState × Bool :=
  match st.redoStack.getLast? with
  | none => (st, false)
  | some snapshot =>
    let st1 := { st with
                   redoStack := st.redoStack.dropLast
                   undoStack := st.undoStack ++ [st.root] }
    (applySnapshot st1 snapshot, true)

/-- One undo step as a state transformer. -/
def undoStep (st : ManagerState) : ManagerState := (undo st).1

/-- One redo step as a state transformer. -/
def redoStep (st : ManagerState) : ManagerState := (redo st).1

/-- `switchBoard(name)`: missing target throws (unreachable branch kept
as the identity); switching to the active board returns without history
or save; otherwise snapshot, retarget, schedule a save. -/
def switchBoard (name : String) (st : ManagerState) : ManagerState :=
  match lookupA st.root.boards name with
  | none => st
  | some _ =>
    if st.root.activeBoard = name then st
    else
      let st1 := pushHistory st
      scheduleSave { st1 with root := { st1.root with activeBoard := name } }

/-- `createBoard(name)`: no-op when the name exists, otherwise snapshot,
add a default board, schedule a save. -/
def createBoard (name : String) (st : ManagerState) : ManagerState :=
  match lookupA st.root.boards name with
  | some _ => st
  | none =>
    let st1 := pushHistory st
    scheduleSave
      { st1 with root := { st1.root with boards := setKeyA st1.root.boards name createDefaultBoardConfig } }

/-- `renameBoard(oldName, newName)`: no-op when the source is missing or
the target exists; otherwise snapshot, write the board under the new
name, delete the old entry, retarget the active board if it was the
renamed one, schedule a save. -/
def renameBoard (oldName newName : String) (st : ManagerState) : ManagerState :=
  match lookupA st.root.boards oldName with
  | none => st
  | some board =>
    match lookupA st.root.boards newName with
    | some _ => st
    | none =>
      let st1 := pushHistory st
      let boards1 := eraseKeyA (setKeyA st1.root.boards newName board) oldName
      let active1 := if st1.root.activeBoard = oldName then newName else st1.root.activeBoard
      scheduleSave { st1 with root := { activeBoard := active1, boards := boards1 } }

/-- `deleteBoard(name)`: refuse to delete the last board or a missing
board; otherwise snapshot, delete, and when the active board was
deleted, retarget to `Object.keys(boards)[0]`, schedule a save. -/
def deleteBoard (name : String) (st : ManagerState) : ManagerState :=
  if st.root.boards.length ≤ 1 then st
  else
    match lookupA st.root.boards name with
    | none => st
    | some _ =>
      let st1 := pushHistory st
      let boards1 := eraseKeyA st1.root.boards name
      let active1 :=
        if st1.root.activeBoard = name then (boards1.map Prod.fst).headD st1.root.activeBoard
        else st1.root.activeBoard
      scheduleSave { st1 with root := { activeBoard := active1, boards := boards1 } }

/-- One mutating entry point of the data manager, with the
nondeterministic UUID of `addCard` supplied as data. -/
inductive Op where
  | addCard (fp newId : String)
  | removeCard (cardId : String)
  | updateCard (cardId : String) (ch : CardChanges)
  | addLink (link : LinkData)
  | updateLink (linkId : String) (ch : LinkChanges)
  | removeLink (linkId : String)
  | reorderCards (ids : List String)
  | setViewMode (mode : ViewMode)
  | setGridColumns (columns : Int)
  | setCardHeight (height : CardHeight)
  | switchBoard (name : String)
  | createBoard (name : String)
  | renameBoard (oldName newName : String)
  | deleteBoard (name : String)
deriving DecidableEq

/-- Apply one mutating entry point. -/
def applyOp (op : Op) (st : ManagerState) : ManagerState :=
  match op with
  | .addCard fp newId => (addCard fp newId st).1
  | .removeCard cardId => removeCard cardId st
  | .updateCard cardId ch => updateCard cardId ch st
  | .addLink link => addLink link st
  | .updateLink linkId ch => updateLink linkId ch st
  | .removeLink linkId => removeLink linkId st
  | .reorderCards ids => reorderCards ids st
  | .setViewMode mode => setViewMode mode st
  | .setGridColumns columns => setGridColumns columns st
  | .setCardHeight height => setCardHeight height st
  | .switchBoard name => switchBoard name st
  | .createBoard name => createBoard name st
  | .renameBoard o n => renameBoard o n st
  | .deleteBoard name => deleteBoard name st

/-- Apply a sequence of mutating entry points. -/
def applyOps (ops : List Op) (st : ManagerState) : ManagerState :=
  ops.foldl (fun s op => applyOp op s) st

/-- Whether an operation reaches its `pushHistory()` call in the given
state, i.e. none of the source's early-return guards fire. -/
def opPushes (op : Op) (st : ManagerState) : Bool :=
  match op with
  | .addCard fp _ =>
    match getConfig? st with
    | none => false
    | some config => (config.cards.find? (fun c => c.filePath == fp)).isNone
  | .removeCard cardId =>
    match getConfig? st with
    | none => false
    | some config => config.cards.any (fun c => c.id == cardId)
  | .updateCard cardId ch =>
    match getConfig? st with
    | none => false
    | some config =>
      match config.cards.find? (fun c => c.id == cardId) with
      | none => false
      | some card => cardHasChange card ch
  | .addLink _ => (getConfig? st).isSome
  | .updateLink linkId ch =>
    match getConfig? st with
    | none => false
    | some config =>
      match config.links.find? (fun l => l.id == linkId) with
      | none => false
      | some link => linkHasChange link ch
  | .removeLink linkId =>
    match getConfig? st with
    | none => false
    | some config => config.links.any (fun l => l.id == linkId)
  | .reorderCards _ => (getConfig? st).isSome
  | .setViewMode mode =>
    match getConfig? st with
    | none => false
    | some config => config.viewMode != mode
  | .setGridColumns columns =>
    match getConfig? st with
    | none => false
    | some config => config.gridColumns != columns
  | .setCardHeight height =>
    match getConfig? st with
    | none => false
    | some config => config.cardHeight != height
  | .switchBoard name =>
    (lookupA st.root.boards name).isSome && st.root.activeBoard != name
  | .createBoard name => (lookupA st.root.boards name).isNone
  | .renameBoard o n =>
    (lookupA st.root.boards o).isSome && (lookupA st.root.boards n).isNone
  | .deleteBoard name =>
    decide (st.root.boards.length > 1) && (lookupA st.root.boards name).isSome

/-- Every operation of the sequence reaches its `pushHistory()` call in
the state it runs in. -/
def pushesAll (st : ManagerState) : List Op → Bool
  | [] => true
  | op :: rest => opPushes op st && pushesAll (applyOp op st) rest

/-- Well-formed loaded root: board names are unique (a JavaScript object
cannot hold duplicate keys) and the active board exists. -/
def RootWF (root : RootConfig) : Prop :=
  (root.boards.map Prod.fst).Nodup ∧ (lookupA root.boards root.activeBoard).isSome

/-! Freeform drag snapping (`SNAP_THRESHOLD = 8`, `snapAxis`,
`getSnappedPosition` in the freeform drag module). -/

/-- `SNAP_THRESHOLD`. -/
def SNAP_THRESHOLD : Rat := 8

/-- Loop body of `snapAxis`: the accumulator is `(bestPos, bestDist)`;
for each target the left-edge distance is tried first, then the
right-edge distance, each winning only when within the threshold and
strictly closer than the current best. -/
def snapStep (rawPos size : Rat) (best : Rat × Rat) (target : Rat) : Rat × Rat :=
  let leftDist := |rawPos - target|
  let best1 :=
    if leftDist ≤ SNAP_THRESHOLD ∧ leftDist < best.2 then (target, leftDist) else best
  let rightDist := |rawPos + size - target|
  if rightDist ≤ SNAP_THRESHOLD ∧ rightDist < best1.2 then (target - size, rightDist) else best1

/-- `snapAxis(rawPos, size, targets)`: no snapping without targets or
with zero size; otherwise fold over the targets starting from
`(rawPos, SNAP_THRESHOLD + 1)`. -/
def snapAxis (rawPos size : Rat) (targets : List Rat) : Rat :=
  if targets = [] ∨ size = 0 then rawPos
  else (targets.foldl (snapStep rawPos size) (rawPos, SNAP_THRESHOLD + 1)).1

/-- `getSnappedPosition(x, y)` with the drag globals (`dragWidth`,
`dragHeight`, `snapTargetsX`, `snapTargetsY`) passed explicitly: snap
each axis independently and clamp at zero. -/
def getSnappedPosition (x y dragWidth dragHeight : Rat)
    (snapTargetsX snapTargetsY : List Rat) : Rat × Rat :=
  (max 0 (snapAxis x dragWidth snapTargetsX), max 0 (snapAxis y dragHeight snapTargetsY))

/-! Commit-order derivation (`commitFreeformOrder`): sort the cards with
the row comparator and emit the ids. -/

/-- `MIN_ZOOM`. -/
def MIN_ZOOM : Rat := 1/4

/-- `MAX_ZOOM`. -/
def MAX_ZOOM : Rat := 3

/-- `round(value)`: `Math.round(value * 100) / 100`, with
`Math.round x = ⌊x + 1/2⌋` (half-up), idealized over exact rationals.
The source computes in IEEE-754 doubles, whose products can land on the
other side of a half-way point than the exact value does, so properties
that hinge on tie behavior of this function are not settled over this
model. -/
def round2 (value : Rat) : Rat :=
  ((⌊value * 100 + 1/2⌋ : Int) : Rat) / 100

/-- `clamp(value)`: round to two decimals, then clamp into
`[MIN_ZOOM, MAX_ZOOM]`. -/
def clampZoom (value : Rat) : Rat :=
  min MAX_ZOOM (max MIN_ZOOM (round2 value))

/-- Zoom-relevant viewport state: the module-level `currentZoom`, the
viewport scroll offsets, and whether the `--freeform-zoom` CSS property
has been written yet (the second conjunct of the early-return test). -/
structure ZoomState where
  zoom : Rat
  scrollLeft : Rat
  scrollTop : Rat
  cssSet : Bool
deriving DecidableEq

/-- `applyZoom(nextZoom, anchor)` with an initialized viewport: early
return when the clamped zoom equals the current one and the CSS property
is already set; otherwise re-derive the scroll offsets so the content
point under the anchor stays put. -/
def applyZoom (nextZoom : Rat) (anchor : Rat × Rat) (st : ZoomState) : ZoomState :=
  let prevZoom := st.zoom
  let clamped := clampZoom nextZoom
  if clamped = prevZoom ∧ st.cssSet then st
  else
    let contentX := (st.scrollLeft + anchor.1) / prevZoom
    let contentY := (st.scrollTop + anchor.2) / prevZoom
    { zoom := clamped
      cssSet := true
      scrollLeft := contentX * clamped - anchor.1
      scrollTop := contentY * clamped - anchor.2 }

/-- `zoomBy(delta, anchor)`. -/
def zoomBy (delta : Rat) (anchor : Rat × Rat) (st : ZoomState) : ZoomState :=
  applyZoom (st.zoom + delta) anchor st

/-! Connector anchor picking (`rectToBox`, `pickAnchors` in
`webview/connectors.ts`). -/

/-- The box record produced by `rectToBox`: edges plus cached center. -/
structure Box where
  left : Rat
  right : Rat
  top : Rat
  bottom : Rat
  cx : Rat
  cy : Rat
deriving DecidableEq

/-- `rectToBox` for a rect of the given origin and extent (the division
by the zoom factor has already been applied to the inputs): `right`,
`bottom` and the center fields are derived exactly as in the source. -/
def rectToBox (left top width height : Rat) : Box where
  left := left
  right := left + width
  top := top
  bottom := top + height
  cx := left + width / 2
  cy := top + height / 2

/-- A 2-d point. -/
structure Pt where
  x : Rat
  y : Rat
deriving DecidableEq

/-- `pickAnchors(fromBox, toBox)`: compare the center displacement; the
dominant axis (ties to horizontal) picks the facing horizontal or
vertical edges. -/
def pickAnchors (fromBox toBox : Box) : Pt × Pt :=
  let dx := toBox.cx - fromBox.cx
  let dy := toBox.cy - fromBox.cy
  if |dx| ≥ |dy| then
    if dx ≥ 0 then
      (⟨fromBox.right, fromBox.cy⟩, ⟨toBox.left, toBox.cy⟩)
    else
      (⟨fromBox.left, fromBox.cy⟩, ⟨toBox.right, toBox.cy⟩)
  else
    if dy ≥ 0 then
      (⟨fromBox.cx, fromBox.bottom⟩, ⟨toBox.cx, toBox.top⟩)
    else
      (⟨fromBox.cx, fromBox.top⟩, ⟨toBox.cx, toBox.bottom⟩)

/-! Specification-side vocabulary used to state the claims. -/

/-- The spec's density invariant: the `order` values of a card list are
a permutation of `0 .. N-1` where `N` is the number of cards. -/
def denseOrders (cards : List CardData) : Prop :=
  (cards.map (fun c => c.order)).Perm
    ((List.range cards.length).map (fun n : Nat => (n : Int)))

/-- Two cards agreeing on every field except possibly `order`. -/
def eqExceptOrder (a b : CardData) : Prop :=
  a.id = b.id ∧ a.filePath = b.filePath ∧ a.synopsis = b.synopsis ∧
  a.label = b.label ∧ a.status = b.status ∧ a.position = b.position

/-- The operations claim C1 ranges over. -/
def isAddRemove : Op → Prop
  | .addCard _ _ => True
  | .removeCard _ => True
  | _ => False

/-- The roots snapshotted along a run: the root before each operation
(the last state's root excluded). -/
def chainRoots : ManagerState → List Op → List RootConfig
  | _, [] => []
  | s, op :: rest => s.root :: chainRoots (applyOp op s) rest

/-- Midpoint of the left edge of a box. -/
def Box.leftMid (b : Box) : Pt := ⟨b.left, (b.top + b.bottom) / 2⟩

/-- Midpoint of the right edge of a box. -/
def Box.rightMid (b : Box) : Pt := ⟨b.right, (b.top + b.bottom) / 2⟩

/-- Midpoint of the top edge of a box. -/
def Box.topMid (b : Box) : Pt := ⟨(b.left + b.right) / 2, b.top⟩

/-- Midpoint of the bottom edge of a box. -/
def Box.bottomMid (b : Box) : Pt := ⟨(b.left + b.right) / 2, b.bottom⟩

/-- A sample card. -/
def sampleCard : CardData :=
  { id := "c1", filePath := "a.md", synopsis := none, label := none,
    status := none, order := 0, position := none }

/-- A sample one-card board. -/
def sampleBoard : Board :=
  { createDefaultBoardConfig with cards := [sampleCard] }

/-- A freshly loaded manager state whose active board holds one card. -/
def sampleState : ManagerState :=
  { root := { activeBoard := "メインボード", boards := [("メインボード", sampleBoard)] },
    undoStack := [], redoStack := [], pendingSave := false, isRestoring := false }

/-- A freshly loaded manager state with the default empty board. -/
def emptyState : ManagerState :=
  { root := createDefaultConfig,
    undoStack := [], redoStack := [], pendingSave := false, isRestoring := false }

/-- A loaded manager state whose undo stack is full (100 snapshots). -/
def fullStackState : ManagerState :=
  { root := createDefaultConfig,
    undoStack := List.replicate 100 createDefaultConfig,
    redoStack := [], pendingSave := false, isRestoring := false }

/-- The spec's removal scenario: cards A, B, C with orders 0, 1, 2 and
links A→B, B→C, A→C. -/
def remBoard : Board :=
  { createDefaultBoardConfig with
      cards :=
        [ { id := "A", filePath := "a.md", synopsis := none, label := none,
            status := none, order := 0, position := none }
        , { id := "B", filePath := "b.md", synopsis := none, label := none,
            status := none, order := 1, position := none }
        , { id := "C", filePath := "c.md", synopsis := none, label := none,
            status := none, order := 2, position := none } ]
      links :=
        [ { id := "l1", fromId := "A", toId := "B", label := "" }
        , { id := "l2", fromId := "B", toId := "C", label := "" }
        , { id := "l3", fromId := "A", toId := "C", label := "" } ] }

/-- A loaded manager state holding `remBoard`. -/
def remState : ManagerState :=
  { root := { activeBoard := "メインボード", boards := [("メインボード", remBoard)] },
    undoStack := [], redoStack := [], pendingSave := false, isRestoring := false }

/-! Association-list record lemmas. -/

@[simp]
theorem lookupA_setKeyA_self {β : Type} (l : List (String × β)) (k : String) (v : β) :
    lookupA (setKeyA l k v) k = some v := by
  induction l with
  | nil => simp [setKeyA, lookupA]
  | cons e t ih =>
    obtain ⟨k', v'⟩ := e
    by_cases h : k' = k
    · simp [setKeyA, lookupA, h]
    · simp [setKeyA, lookupA, h, ih]

theorem lookupA_setKeyA_ne {β : Type} {l : List (String × β)} {k k' : String} (v : β)
    (h : k' ≠ k) : lookupA (setKeyA l k v) k' = lookupA l k' := by
  induction l with
  | nil =>
    have hne : ¬ k = k' := fun hh => h hh.symm
    simp [setKeyA, lookupA, hne]
  | cons e t ih =>
    obtain ⟨k0, v0⟩ := e
    by_cases h0 : k0 = k
    · subst h0
      have hne : ¬ k0 = k' := fun hh => h hh.symm
      simp [setKeyA, lookupA, hne]
    · simp only [setKeyA, if_neg h0, lookupA]
      by_cases h1 : k0 = k'
      · simp [h1]
      · simp [h1, ih]

theorem lookupA_eraseKeyA_ne {β : Type} {l : List (String × β)} {k k' : String}
    (h : k' ≠ k) : lookupA (eraseKeyA l k) k' = lookupA l k' := by
  induction l with
  | nil => rfl
  | cons e t ih =>
    obtain ⟨k0, v0⟩ := e
    by_cases h0 : k0 = k
    · have hne : ¬ k0 = k' := by
        rw [h0]
        exact fun hh => h hh.symm
      simp only [eraseKeyA, List.filter_cons] at ih ⊢
      rw [if_neg (by simp [h0])]
      rw [ih]
      simp [lookupA, hne]
    · simp only [eraseKeyA, List.filter_cons] at ih ⊢
      rw [if_pos (by simp [h0])]
      simp only [lookupA]
      by_cases h1 : k0 = k'
      · simp [h1]
      · simp only [if_neg h1]
        exact ih

theorem lookupA_isSome_iff {β : Type} {l : List (String × β)} {k : String} :
    (lookupA l k).isSome ↔ k ∈ l.map Prod.fst := by
  induction l with
  | nil => simp [lookupA]
  | cons e t ih =>
    obtain ⟨k0, v0⟩ := e
    simp only [lookupA, List.map_cons, List.mem_cons]
    by_cases h0 : k0 = k
    · simp [h0]
    · rw [if_neg h0, ih]
      constructor
      · intro hm
        exact Or.inr hm
      · rintro (hh | hm)
        · exact absurd hh.symm h0
        · exact hm

theorem lookupA_eq_none_iff {β : Type} {l : List (String × β)} {k : String} :
    lookupA l k = none ↔ k ∉ l.map Prod.fst := by
  rw [← lookupA_isSome_iff, Option.isSome_iff_exists]
  cases lookupA l k <;> simp

theorem setKeyA_map_fst_of_mem {β : Type} {l : List (String × β)} {k : String} (v : β)
    (h : k ∈ l.map Prod.fst) : (setKeyA l k v).map Prod.fst = l.map Prod.fst := by
  induction l with
  | nil => simp at h
  | cons e t ih =>
    obtain ⟨k0, v0⟩ := e
    by_cases h0 : k0 = k
    · simp [setKeyA, h0]
    · simp only [List.map_cons, List.mem_cons] at h
      rcases h with h | h

      · exact absurd h.symm h0
      · simp [setKeyA, h0, ih h]

theorem setKeyA_map_fst_of_not_mem {β : Type} {l : List (String × β)} {k : String} (v : β)
    (h : k ∉ l.map Prod.fst) : (setKeyA l k v).map Prod.fst = l.map Prod.fst ++ [k] := by
  induction l with
  | nil => simp [setKeyA]
  | cons e t ih =>
    obtain ⟨k0, v0⟩ := e
    simp only [List.map_cons, List.mem_cons] at h
    push_neg at h
    have hne : ¬ k0 = k := fun hh => h.1 hh.symm
    simp only [setKeyA, if_neg hne, List.map_cons, ih h.2]
    rfl

theorem eraseKeyA_map_fst {β : Type} (l : List (String × β)) (k : String) :
    (eraseKeyA l k).map Prod.fst = (l.map Prod.fst).filter (fun k0 => k0 ≠ k) := by
  induction l with
  | nil => simp [eraseKeyA]
  | cons e t ih =>
    obtain ⟨k0, v0⟩ := e
    by_cases h0 : k0 = k
    · simpa [eraseKeyA, List.filter_cons, h0] using ih
    · simpa [eraseKeyA, List.filter_cons, h0] using ih

theorem eraseKeyA_ne_nil {β : Type} {l : List (String × β)} {k : String}
    (hn : (l.map Prod.fst).Nodup) (hl : 1 < l.length) : eraseKeyA l k ≠ [] := by
  match l, hl with
  | (k1, v1) :: (k2, v2) :: t, _ =>
    simp only [List.map_cons, List.nodup_cons, List.mem_cons] at hn
    intro hemp
    simp only [eraseKeyA, List.filter_cons, ne_eq, decide_not] at hemp
    by_cases h1 : k1 = k
    · by_cases h2 : k2 = k
      · exact hn.1 (Or.inl (h1.trans h2.symm))
      · rw [if_neg (by simp [h1]), if_pos (by simp [h2])] at hemp
        simp at hemp
    · rw [if_pos (by simp [h1])] at hemp
      simp at hemp

/-! Basic state lemmas. -/

@[simp]
theorem pushHistory_root (st : ManagerState) : (pushHistory st).root = st.root := by
  unfold pushHistory
  split <;> rfl

@[simp]
theorem pushHistory_pendingSave (st : ManagerState) :
    (pushHistory st).pendingSave = st.pendingSave := by
  unfold pushHistory
  split <;> rfl

@[simp]
theorem pushHistory_isRestoring (st : ManagerState) :
    (pushHistory st).isRestoring = st.isRestoring := by
  unfold pushHistory
  split <;> rfl

@[simp]
theorem scheduleSave_root (st : ManagerState) : (scheduleSave st).root = st.root := rfl

@[simp]
theorem scheduleSave_undoStack (st : ManagerState) :
    (scheduleSave st).undoStack = st.undoStack := rfl

@[simp]
theorem scheduleSave_redoStack (st : ManagerState) :
    (scheduleSave st).redoStack = st.redoStack := rfl

@[simp]
theorem scheduleSave_isRestoring (st : ManagerState) :
    (scheduleSave st).isRestoring = st.isRestoring := rfl

@[simp]
theorem scheduleSave_pendingSave (st : ManagerState) :
    (scheduleSave st).pendingSave = true := rfl

@[simp]
theorem setActiveBoard_undoStack (st : ManagerState) (b : Board) :
    (setActiveBoard st b).undoStack = st.undoStack := rfl

@[simp]
theorem setActiveBoard_redoStack (st : ManagerState) (b : Board) :
    (setActiveBoard st b).redoStack = st.redoStack := rfl

@[simp]
theorem setActiveBoard_isRestoring (st : ManagerState) (b : Board) :
    (setActiveBoard st b).isRestoring = st.isRestoring := rfl

@[simp]
theorem setActiveBoard_pendingSave (st : ManagerState) (b : Board) :
    (setActiveBoard st b).pendingSave = st.pendingSave := rfl

@[simp]
theorem setActiveBoard_activeBoard (st : ManagerState) (b : Board) :
    (setActiveBoard st b).root.activeBoard = st.root.activeBoard := rfl

@[simp]
theorem getConfig?_setActiveBoard (st : ManagerState) (b : Board) :
    getConfig? (setActiveBoard st b) = some b := by
  simp [getConfig?, setActiveBoard]

@[simp]
theorem getConfig?_scheduleSave (st : ManagerState) :
    getConfig? (scheduleSave st) = getConfig? st := rfl

@[simp]
theorem getConfig?_pushHistory (st : ManagerState) :
    getConfig? (pushHistory st) = getConfig? st := by
  unfold getConfig? pushHistory
  split <;> rfl

theorem pushHistory_undoStack_of_lt (st : ManagerState) (h : st.isRestoring = false)
    (hlen : st.undoStack.length < maxHistory) :
    (pushHistory st).undoStack = st.undoStack ++ [st.root] ∧
      (pushHistory st).redoStack = [] := by
  simp only [pushHistory, h, Bool.false_eq_true, if_false]
  have hng : ¬ (st.undoStack ++ [st.root]).length > maxHistory := by
    simp only [List.length_append, List.length_cons, List.length_nil]
    omega
  rw [if_neg hng]
  exact ⟨rfl, trivial⟩

/-- C10: `addCard` on an already-present file path returns the existing
card and changes nothing; `addCard` never creates a second card with a
file path already on the active board. -/
theorem addCard_idempotent_per_path (st : ManagerState) (fp newId : String) (config : Board)
    (hc : getConfig? st = some config) :
    ((∃ c ∈ config.cards, c.filePath = fp) →
      (addCard fp newId st).1 = st ∧
      ∃ c, (addCard fp newId st).2 = some c ∧ c ∈ config.cards ∧ c.filePath = fp) ∧
    ((config.cards.map (fun c => c.filePath)).Nodup →
      ∀ config', getConfig? (addCard fp newId st).1 = some config' →
        (config'.cards.map (fun c => c.filePath)).Nodup) := by
  constructor
  · intro hex
    have hfind : ∃ c, config.cards.find? (fun c => c.filePath == fp) = some c := by
      rw [← Option.isSome_iff_exists, List.find?_isSome]
      obtain ⟨c, hc1, hc2⟩ := hex
      exact ⟨c, hc1, by simp [hc2]⟩
    obtain ⟨c, hfind⟩ := hfind
    have hmem := List.mem_of_find?_eq_some hfind
    have hfp : c.filePath = fp := by
      have := List.find?_some hfind
      simpa using this
    refine ⟨?_, c, ?_, hmem, hfp⟩
    · simp [addCard, hc, hfind]
    · simp [addCard, hc, hfind]
  · intro hnd config' hc'
    cases hfind : config.cards.find? (fun c => c.filePath == fp) with
    | some c =>
      have : (addCard fp newId st).1 = st := by simp [addCard, hc, hfind]
      rw [this, hc] at hc'
      cases hc'
      exact hnd
    | none =>
      have habs : ∀ c ∈ config.cards, c.filePath ≠ fp := by
        intro c hcmem
        have := List.find?_eq_none.mp hfind c hcmem
        simpa using this
      have hstep : (addCard fp newId st).1 =
          scheduleSave (setActiveBoard (pushHistory st)
            { config with cards := config.cards ++
                [{ id := newId, filePath := fp, synopsis := none, label := none,
                   status := none, order := (config.cards.length : Int), position := none }] }) := by
        simp [addCard, hc, hfind]
      rw [hstep] at hc'
      simp only [getConfig?_scheduleSave, getConfig?_setActiveBoard, Option.some.injEq] at hc'
      subst hc'
      simp only [List.map_append, List.map_cons, List.map_nil]
      rw [List.nodup_append]
      refine ⟨hnd, List.nodup_singleton _, ?_⟩
      intro x hx
      simp only [List.mem_map] at hx
      obtain ⟨c, hcmem, hcx⟩ := hx
      simp only [List.mem_singleton]
      intro hxfp
      exact habs c hcmem (by rw [hcx, hxfp])

/-- Witness for C10 on a one-card board. -/
theorem addCard_idempotent_per_path_witness :
    getConfig? sampleState = some sampleBoard ∧
    ((addCard "a.md" "fresh" sampleState).1 = sampleState ∧
      ∃ c, (addCard "a.md" "fresh" sampleState).2 = some c ∧
        c ∈ sampleBoard.cards ∧ c.filePath = "a.md") := by
  have h : getConfig? sampleState = some sampleBoard := rfl
  refine ⟨h, (addCard_idempotent_per_path sampleState "a.md" "fresh" sampleBoard h).1 ?_⟩
  exact ⟨sampleCard, by simp [sampleBoard], rfl⟩

/-! Stable-sort lemmas. -/

theorem insertCmp_perm {α : Type} (cmp : α → α → Rat) (x : α) (l : List α) :
    (insertCmp cmp x l).Perm (x :: l) := by
  induction l with
  | nil => simp [insertCmp]
  | cons y ys ih =>
    by_cases h : cmp x y ≤ 0
    · simp [insertCmp, h]
    · simp only [insertCmp, if_neg h]
      exact (ih.cons y).trans (List.Perm.swap x y ys)

theorem sortCmp_perm {α : Type} (cmp : α → α → Rat) (l : List α) :
    (sortCmp cmp l).Perm l := by
  induction l with
  | nil => simp [sortCmp]
  | cons x xs ih =>
    exact (insertCmp_perm cmp x (sortCmp cmp xs)).trans (ih.cons x)

theorem mem_insertCmp {α : Type} {cmp : α → α → Rat} {x w : α} {l : List α}
    (h : w ∈ insertCmp cmp x l) : w = x ∨ w ∈ l := by
  have := (insertCmp_perm cmp x l).mem_iff.mp h
  simpa using this

theorem insertCmp_pairwise {α : Type} (cmp : α → α → Rat) (x : α) (l : List α)
    (htot : ∀ y ∈ l, cmp x y ≤ 0 ∨ cmp y x ≤ 0)
    (htr : ∀ a ∈ l, ∀ b ∈ l, cmp x a ≤ 0 → cmp a b ≤ 0 → cmp x b ≤ 0)
    (hp : l.Pairwise (fun a b => cmp a b ≤ 0)) :
    (insertCmp cmp x l).Pairwise (fun a b => cmp a b ≤ 0) := by
  induction l with
  | nil => simp [insertCmp]
  | cons y ys ih =>
    rcases List.pairwise_cons.mp hp with ⟨hy, hys⟩
    by_cases h : cmp x y ≤ 0
    · simp only [insertCmp, if_pos h]
      refine List.pairwise_cons.mpr ⟨?_, hp⟩
      intro z hz
      rcases List.mem_cons.mp hz with hz | hz
      · rw [hz]
        exact h
      · exact htr y (List.mem_cons_self y ys) z (List.mem_cons_of_mem y hz) h (hy z hz)
    · simp only [insertCmp, if_neg h]
      refine List.pairwise_cons.mpr ⟨?_, ?_⟩
      · intro w hw
        rcases mem_insertCmp hw with hw | hw
        · rcases htot y (List.mem_cons_self y ys) with h1 | h1
          · exact absurd h1 h
          · rw [hw]
            exact h1
        · exact hy w hw
      · refine ih (fun z hz => htot z (List.mem_cons_of_mem y hz))
          (fun a ha b hb => htr a (List.mem_cons_of_mem y ha) b (List.mem_cons_of_mem y hb))
          hys

theorem sortCmp_pairwise {α : Type} (cmp : α → α → Rat) (l : List α)
    (htot : ∀ a ∈ l, ∀ b ∈ l, cmp a b ≤ 0 ∨ cmp b a ≤ 0)
    (htr : ∀ a ∈ l, ∀ b ∈ l, ∀ c ∈ l, cmp a b ≤ 0 → cmp b c ≤ 0 → cmp a c ≤ 0) :
    (sortCmp cmp l).Pairwise (fun a b => cmp a b ≤ 0) := by
  induction l with
  | nil => simp [sortCmp]
  | cons x xs ih =>
    have hmem : ∀ z ∈ sortCmp cmp xs, z ∈ x :: xs := by
      intro z hz
      exact List.mem_cons_of_mem x ((sortCmp_perm cmp xs).mem_iff.mp hz)
    refine insertCmp_pairwise cmp x (sortCmp cmp xs) ?_ ?_ ?_
    · intro y hy
      exact htot x (List.mem_cons_self x xs) y (hmem y hy)
    · intro a ha b hb
      exact htr x (List.mem_cons_self x xs) a (hmem a ha) b (hmem b hb)
    · refine ih ?_ ?_
      · intro a ha b hb
        exact htot a (List.mem_cons_of_mem x ha) b (List.mem_cons_of_mem x hb)
      · intro a ha b hb c hc
        exact htr a (List.mem_cons_of_mem x ha) b (List.mem_cons_of_mem x hb)
          c (List.mem_cons_of_mem x hc)

/-! Renumbering lemmas. -/

theorem mem_renumberFrom_of_mem {l : List CardData} {c : CardData} (i : Int)
    (h : c ∈ l) : ∃ c' ∈ renumberFrom i l, eqExceptOrder c' c := by
  induction l generalizing i with
  | nil => simp at h
  | cons d t ih =>
    rcases List.mem_cons.mp h with h | h
    · subst h
      exact ⟨{ c with order := i }, List.mem_cons_self _ _,
        ⟨rfl, rfl, rfl, rfl, rfl, rfl⟩⟩
    · obtain ⟨c', hc'mem, hc'⟩ := ih (i + 1) h
      exact ⟨c', List.mem_cons_of_mem _ hc'mem, hc'⟩

theorem mem_of_mem_renumberFrom {l : List CardData} {c' : CardData} {i : Int}
    (h : c' ∈ renumberFrom i l) : ∃ c ∈ l, eqExceptOrder c' c := by
  induction l generalizing i with
  | nil => simp [renumberFrom] at h
  | cons d t ih =>
    rcases List.mem_cons.mp h with h | h
    · subst h
      exact ⟨d, List.mem_cons_self _ _, ⟨rfl, rfl, rfl, rfl, rfl, rfl⟩⟩
    · obtain ⟨c, hcmem, hc⟩ := ih h
      exact ⟨c, List.mem_cons_of_mem _ hcmem, hc⟩

theorem map_order_renumberFrom (l : List CardData) (i : Int) :
    (renumberFrom i l).map (fun c => c.order) =
      (List.range l.length).map (fun n : Nat => i + (n : Int)) := by
  induction l generalizing i with
  | nil => simp [renumberFrom]
  | cons d t ih =>
    simp only [renumberFrom, List.map_cons, List.length_cons, List.range_succ_eq_map,
      List.map_map]
    rw [ih (i + 1)]
    refine congrArg₂ List.cons (by simp) ?_
    refine congrArg (fun f => List.map f (List.range t.length)) ?_
    funext n
    simp only [Function.comp_apply]
    push_cast
    ring

/-- C2: removing a present card also removes every link referencing it
on either side, keeps exactly the links that do not reference it, and
keeps every other card (its `order` possibly renumbered). -/
theorem removeCard_cascades (st : ManagerState) (config : Board) (cardId : String)
    (hc : getConfig? st = some config)
    (hex : ∃ c ∈ config.cards, c.id = cardId) :
    ∃ config', getConfig? (removeCard cardId st) = some config' ∧
      config'.links = config.links.filter (fun l => l.fromId != cardId && l.toId != cardId) ∧
      (∀ l ∈ config'.links, l.fromId ≠ cardId ∧ l.toId ≠ cardId) ∧
      (∀ c' ∈ config'.cards, c'.id ≠ cardId) ∧
      (∀ c ∈ config.cards, c.id ≠ cardId → ∃ c' ∈ config'.cards, eqExceptOrder c' c) ∧
      (∀ l ∈ config.links, l.fromId ≠ cardId → l.toId ≠ cardId → l ∈ config'.links) := by
  have hany : config.cards.any (fun c => c.id == cardId) = true := by
    obtain ⟨c, hm, hid⟩ := hex
    exact List.any_eq_true.mpr ⟨c, hm, by simp [hid]⟩
  refine ⟨{ config with
      cards := renumber (sortCmp orderCmp (config.cards.filter (fun c => c.id != cardId)))
      links := config.links.filter (fun l => l.fromId != cardId && l.toId != cardId) }, ?_, rfl, ?_, ?_, ?_, ?_⟩
  · simp [removeCard, hc, hany]
  · intro l hl
    have := (List.mem_filter.mp hl).2
    simp only [Bool.and_eq_true, bne_iff_ne, ne_eq] at this
    exact this
  · intro c' hc'
    obtain ⟨c0, hc0mem, heq⟩ := mem_of_mem_renumberFrom hc'
    have hc0 : c0 ∈ config.cards.filter (fun c => c.id != cardId) :=
      (sortCmp_perm orderCmp _).mem_iff.mp hc0mem
    have := (List.mem_filter.mp hc0).2
    simp only [bne_iff_ne, ne_eq] at this
    rw [heq.1]
    exact this
  · intro c hcmem hcid
    have hcf : c ∈ config.cards.filter (fun c => c.id != cardId) :=
      List.mem_filter.mpr ⟨hcmem, by simp [hcid]⟩
    have hcs : c ∈ sortCmp orderCmp (config.cards.filter (fun c => c.id != cardId)) :=
      (sortCmp_perm orderCmp _).mem_iff.mpr hcf
    exact mem_renumberFrom_of_mem 0 hcs
  · intro l hl h1 h2
    exact List.mem_filter.mpr ⟨hl, by simp [h1, h2]⟩

/-- Witness for C2: the spec scenario (cards A, B, C with links A→B,
B→C and A→C; B removed). -/
theorem removeCard_cascades_witness :
    (getConfig? remState = some remBoard ∧ ∃ c ∈ remBoard.cards, c.id = "B") ∧
    ∃ config', getConfig? (removeCard "B" remState) = some config' ∧
      config'.links = remBoard.links.filter (fun l => l.fromId != "B" && l.toId != "B") ∧
      (∀ l ∈ config'.links, l.fromId ≠ "B" ∧ l.toId ≠ "B") ∧
      (∀ c' ∈ config'.cards, c'.id ≠ "B") ∧
      (∀ c ∈ remBoard.cards, c.id ≠ "B" → ∃ c' ∈ config'.cards, eqExceptOrder c' c) ∧
      (∀ l ∈ remBoard.links, l.fromId ≠ "B" → l.toId ≠ "B" → l ∈ config'.links) := by
  have h1 : getConfig? remState = some remBoard := rfl
  have h2 : ∃ c ∈ remBoard.cards, c.id = "B" := by
    refine ⟨{ id := "B", filePath := "b.md", synopsis := none, label := none,
              status := none, order := 1, position := none }, ?_, rfl⟩
    simp [remBoard]
  exact ⟨⟨h1, h2⟩, removeCard_cascades remState remBoard "B" h1 h2⟩

/-! Undo-stack shape of each operation. -/

theorem applyOp_undoStack (op : Op) (st : ManagerState) :
    (applyOp op st).undoStack = st.undoStack ∨
      (applyOp op st).undoStack = (pushHistory st).undoStack := by
  cases op with
  | addCard fp newId =>
    simp only [applyOp, addCard]
    cases h : getConfig? st with
    | none => exact Or.inl rfl
    | some config =>
      dsimp only
      cases hf : config.cards.find? (fun c => c.filePath == fp) with
      | some c => exact Or.inl rfl
      | none => exact Or.inr (by simp)
  | removeCard cardId =>
    simp only [applyOp, removeCard]
    cases h : getConfig? st with
    | none => exact Or.inl rfl
    | some config =>
      dsimp only
      by_cases ha : config.cards.any (fun c => c.id == cardId) = true
      · rw [if_pos ha]
        exact Or.inr (by simp)
      · rw [if_neg ha]
        exact Or.inl rfl
  | updateCard cardId ch =>
    simp only [applyOp, updateCard]
    cases h : getConfig? st with
    | none => exact Or.inl rfl
    | some config =>
      dsimp only
      cases hf : config.cards.find? (fun c => c.id == cardId) with
      | none => exact Or.inl rfl
      | some card =>
        dsimp only
        by_cases hch : cardHasChange card ch = true
        · rw [if_pos hch]
          exact Or.inr (by simp)
        · rw [if_neg hch]
          exact Or.inl rfl
  | addLink link =>
    simp only [applyOp, addLink]
    cases h : getConfig? st with
    | none => exact Or.inl rfl
    | some config => exact Or.inr (by simp)
  | updateLink linkId ch =>
    simp only [applyOp, updateLink]
    cases h : getConfig? st with
    | none => exact Or.inl rfl
    | some config =>
      dsimp only
      cases hf : config.links.find? (fun l => l.id == linkId) with
      | none => exact Or.inl rfl
      | some link =>
        dsimp only
        by_cases hch : linkHasChange link ch = true
        · rw [if_pos hch]
          exact Or.inr (by simp)
        · rw [if_neg hch]
          exact Or.inl rfl
  | removeLink linkId =>
    simp only [applyOp, removeLink]
    cases h : getConfig? st with
    | none => exact Or.inl rfl
    | some config =>
      dsimp only
      by_cases ha : config.links.any (fun l => l.id == linkId) = true
      · rw [if_pos ha]
        exact Or.inr (by simp)
      · rw [if_neg ha]
        exact Or.inl rfl
  | reorderCards ids =>
    simp only [applyOp, reorderCards]
    cases h : getConfig? st with
    | none => exact Or.inl rfl
    | some config => exact Or.inr (by simp)
  | setViewMode mode =>
    simp only [applyOp, setViewMode]
    cases h : getConfig? st with
    | none => exact Or.inl rfl
    | some config =>
      dsimp only
      by_cases he : config.viewMode = mode
      · rw [if_pos he]
        exact Or.inl rfl
      · rw [if_neg he]
        exact Or.inr (by simp)
  | setGridColumns columns =>
    simp only [applyOp, setGridColumns]
    cases h : getConfig? st with
    | none => exact Or.inl rfl
    | some config =>
      dsimp only
      by_cases he : config.gridColumns = columns
      · rw [if_pos he]
        exact Or.inl rfl
      · rw [if_neg he]
        exact Or.inr (by simp)
  | setCardHeight height =>
    simp only [applyOp, setCardHeight]
    cases h : getConfig? st with
    | none => exact Or.inl rfl
    | some config =>
      dsimp only
      by_cases he : config.cardHeight = height
      · rw [if_pos he]
        exact Or.inl rfl
      · rw [if_neg he]
        exact Or.inr (by simp)
  | switchBoard name =>
    simp only [applyOp, switchBoard]
    cases h : lookupA st.root.boards name with
    | none => exact Or.inl rfl
    | some b =>
      dsimp only
      by_cases he : st.root.activeBoard = name
      · rw [if_pos he]
        exact Or.inl rfl
      · rw [if_neg he]
        exact Or.inr (by simp)
  | createBoard name =>
    simp only [applyOp, createBoard]
    cases h : lookupA st.root.boards name with
    | some b => exact Or.inl rfl
    | none => exact Or.inr (by simp)
  | renameBoard o n =>
    simp only [applyOp, renameBoard]
    cases h : lookupA st.root.boards o with
    | none => exact Or.inl rfl
    | some b =>
      dsimp only
      cases h2 : lookupA st.root.boards n with
      | some b2 => exact Or.inl rfl
      | none => exact Or.inr (by simp)
  | deleteBoard name =>
    simp only [applyOp, deleteBoard]
    by_cases hl : st.root.boards.length ≤ 1
    · rw [if_pos hl]
      exact Or.inl rfl
    · rw [if_neg hl]
      cases h : lookupA st.root.boards name with
      | none => exact Or.inl rfl
      | some b => exact Or.inr (by simp)

theorem pushHistory_length_le (st : ManagerState)
    (h : st.undoStack.length ≤ maxHistory) :
    (pushHistory st).undoStack.length ≤ maxHistory := by
  by_cases hr : st.isRestoring
  · simp [pushHistory, hr, h]
  · rw [Bool.not_eq_true] at hr
    simp only [pushHistory, hr, Bool.false_eq_true, if_false]
    by_cases hgt : (st.undoStack ++ [st.root]).length > maxHistory
    · rw [if_pos hgt]
      simp only [List.length_drop, List.length_append, List.length_cons, List.length_nil]
      omega
    · rw [if_neg hgt]
      simp only [List.length_append, List.length_cons, List.length_nil] at hgt ⊢
      omega

theorem applyOps_cons (op : Op) (rest : List Op) (st : ManagerState) :
    applyOps (op :: rest) st = applyOps rest (applyOp op st) := rfl

/-- C8: the undo stack never exceeds 100 snapshots across any sequence
of mutating operations, and a push onto a full stack evicts the oldest
snapshot while keeping the 100 most recent ones. -/
theorem undo_stack_capped :
    (∀ (ops : List Op) (st : ManagerState), st.undoStack.length ≤ maxHistory →
      (applyOps ops st).undoStack.length ≤ maxHistory) ∧
    (∀ st : ManagerState, st.isRestoring = false → st.undoStack.length = maxHistory →
      (pushHistory st).undoStack = st.undoStack.tail ++ [st.root]) := by
  constructor
  · intro ops
    induction ops with
    | nil =>
      intro st h
      exact h
    | cons op rest ih =>
      intro st h
      rw [applyOps_cons]
      refine ih (applyOp op st) ?_
      rcases applyOp_undoStack op st with he | he
      · rw [he]
        exact h
      · rw [he]
        exact pushHistory_length_le st h
  · intro st hr hlen
    simp only [pushHistory, hr, Bool.false_eq_true, if_false]
    rw [if_pos ?pos]
    case pos =>
      simp only [List.length_append, List.length_cons, List.length_nil]
      omega
    cases hstack : st.undoStack with
    | nil =>
      rw [hstack] at hlen
      simp [maxHistory] at hlen
    | cons a t =>
      simp

/-- Witness for C8: a history-pushing mutation on a fresh state keeps
the cap, and a push onto a full 100-deep stack keeps the newest 100. -/
theorem undo_stack_capped_witness :
    (emptyState.undoStack.length ≤ maxHistory ∧
      (applyOps [Op.addCard "a.md" "id1"] emptyState).undoStack.length ≤ maxHistory) ∧
    (fullStackState.isRestoring = false ∧ fullStackState.undoStack.length = maxHistory ∧
      (pushHistory fullStackState).undoStack =
        fullStackState.undoStack.tail ++ [fullStackState.root]) := by
  have h0 : emptyState.undoStack.length ≤ maxHistory := by
    simp [emptyState, maxHistory]
  have h1 : fullStackState.undoStack.length = maxHistory := by
    simp [fullStackState, maxHistory]
  exact ⟨⟨h0, undo_stack_capped.1 [Op.addCard "a.md" "id1"] emptyState h0⟩,
    ⟨rfl, h1, undo_stack_capped.2 fullStackState rfl h1⟩⟩

/-- Counterexample to C4: `reorderCards` with the board's current order
(an identical new value — the state is left unchanged) still pushes a
history snapshot and schedules a save. -/
theorem reorder_identical_value_still_pushes :
    (reorderCards ["c1"] sampleState).root = sampleState.root ∧
    (reorderCards ["c1"] sampleState).undoStack = [sampleState.root] ∧
    (reorderCards ["c1"] sampleState).pendingSave = true := by
  refine ⟨?_, ?_, ?_⟩ <;> decide

/-- C4 as amended: `updateCard`, `updateLink`, `setViewMode`,
`setGridColumns` and `setCardHeight` are complete no-ops when the
supplied value is identical to the stored one, while `addLink` and
`reorderCards` push a history snapshot and schedule a save
unconditionally. -/
theorem noop_mutations_amended (st : ManagerState) (config : Board)
    (hc : getConfig? st = some config) (hr : st.isRestoring = false)
    (hlen : st.undoStack.length < maxHistory) :
    (∀ cardId ch card, config.cards.find? (fun c => c.id == cardId) = some card →
        cardHasChange card ch = false → updateCard cardId ch st = st) ∧
    (∀ linkId ch link, config.links.find? (fun l => l.id == linkId) = some link →
        linkHasChange link ch = false → updateLink linkId ch st = st) ∧
    (∀ mode, config.viewMode = mode → setViewMode mode st = st) ∧
    (∀ columns, config.gridColumns = columns → setGridColumns columns st = st) ∧
    (∀ height, config.cardHeight = height → setCardHeight height st = st) ∧
    (∀ link, (addLink link st).undoStack = st.undoStack ++ [st.root] ∧
      (addLink link st).pendingSave = true) ∧
    (∀ ids, (reorderCards ids st).undoStack = st.undoStack ++ [st.root] ∧
      (reorderCards ids st).pendingSave = true) := by
  have hpush := pushHistory_undoStack_of_lt st hr hlen
  refine ⟨?_, ?_, ?_, ?_, ?_, ?_, ?_⟩
  · intro cardId ch card hf hch
    simp [updateCard, hc, hf, hch]
  · intro linkId ch link hf hch
    simp [updateLink, hc, hf, hch]
  · intro mode he
    simp [setViewMode, hc, he]
  · intro columns he
    simp [setGridColumns, hc, he]
  · intro height he
    simp [setCardHeight, hc, he]
  · intro link
    constructor
    · simp [addLink, hc, hpush.1]
    · simp [addLink, hc]
  · intro ids
    constructor
    · simp [reorderCards, hc, hpush.1]
    · simp [reorderCards, hc]

/-- Witness for the amended C4 at concrete inputs: an empty change set
on an existing card, the current view mode, and an unconditional
`addLink` push. -/
theorem noop_mutations_amended_witness :
    (getConfig? sampleState = some sampleBoard ∧ sampleState.isRestoring = false ∧
      sampleState.undoStack.length < maxHistory) ∧
    updateCard "c1" {} sampleState = sampleState ∧
    setViewMode ViewMode.grid sampleState = sampleState ∧
    ((addLink { id := "l9", fromId := "c1", toId := "c1", label := "" } sampleState).undoStack
        = sampleState.undoStack ++ [sampleState.root] ∧
      (addLink { id := "l9", fromId := "c1", toId := "c1", label := "" } sampleState).pendingSave
        = true) := by
  have hc : getConfig? sampleState = some sampleBoard := rfl
  have hr : sampleState.isRestoring = false := rfl
  have hlen : sampleState.undoStack.length < maxHistory := by
    simp [sampleState, maxHistory]
  have h := noop_mutations_amended sampleState sampleBoard hc hr hlen
  refine ⟨⟨hc, hr, hlen⟩, ?_, ?_, ?_⟩
  · exact h.1 "c1" {} sampleCard (by decide) (by decide)
  · exact h.2.2.1 ViewMode.grid (by decide)
  · exact h.2.2.2.2.2.1 { id := "l9", fromId := "c1", toId := "c1", label := "" }

/-! Order-density lemmas. -/

theorem renumberFrom_length (i : Int) (l : List CardData) :
    (renumberFrom i l).length = l.length := by
  induction l generalizing i with
  | nil => rfl
  | cons d t ih => simp [renumberFrom, ih]

theorem denseOrders_renumber (l : List CardData) : denseOrders (renumber l) := by
  unfold denseOrders renumber
  rw [map_order_renumberFrom, renumberFrom_length]
  have hfun : (fun n : Nat => (0 : Int) + (n : Int)) = fun n : Nat => (n : Int) := by
    funext n
    simp
  rw [hfun]

theorem denseOrders_append (cards : List CardData) (c : CardData)
    (hd : denseOrders cards) (hc : c.order = (cards.length : Int)) :
    denseOrders (cards ++ [c]) := by
  unfold denseOrders at hd ⊢
  simp only [List.map_append, List.map_cons, List.map_nil, List.length_append,
    List.length_cons, List.length_nil]
  rw [List.range_succ, List.map_append]
  refine hd.append ?_
  simp [hc]

theorem orderCmp_le_iff (a b : CardData) : orderCmp a b ≤ 0 ↔ a.order ≤ b.order := by
  unfold orderCmp
  rw [sub_nonpos]
  exact_mod_cast Iff.rfl

theorem orderCmp_total (a b : CardData) : orderCmp a b ≤ 0 ∨ orderCmp b a ≤ 0 := by
  rcases le_total a.order b.order with h | h
  · exact Or.inl ((orderCmp_le_iff a b).mpr h)
  · exact Or.inr ((orderCmp_le_iff b a).mpr h)

theorem orderCmp_trans (a b c : CardData) (h1 : orderCmp a b ≤ 0) (h2 : orderCmp b c ≤ 0) :
    orderCmp a c ≤ 0 := by
  rw [orderCmp_le_iff] at h1 h2 ⊢
  exact le_trans h1 h2

theorem addRemove_preserves_density (op : Op) (hop : isAddRemove op) (st : ManagerState)
    (h : ∀ config, getConfig? st = some config → denseOrders config.cards) :
    ∀ config', getConfig? (applyOp op st) = some config' → denseOrders config'.cards := by
  cases op with
  | addCard fp newId =>
    intro config' hc'
    simp only [applyOp, addCard] at hc'
    cases hcfg : getConfig? st with
    | none =>
      rw [hcfg] at hc'
      dsimp only at hc'
      rw [hcfg] at hc'
      cases hc'
    | some config =>
      rw [hcfg] at hc'
      dsimp only at hc'
      cases hf : config.cards.find? (fun c => c.filePath == fp) with
      | some c =>
        rw [hf] at hc'
        dsimp only at hc'
        rw [hcfg] at hc'
        cases hc'
        exact h _ hcfg
      | none =>
        rw [hf] at hc'
        dsimp only at hc'
        simp only [getConfig?_scheduleSave, getConfig?_setActiveBoard,
          Option.some.injEq] at hc'
        subst hc'
        exact denseOrders_append config.cards _ (h config hcfg) rfl
  | removeCard cardId =>
    intro config' hc'
    simp only [applyOp, removeCard] at hc'
    cases hcfg : getConfig? st with
    | none =>
      rw [hcfg] at hc'
      dsimp only at hc'
      rw [hcfg] at hc'
      cases hc'
    | some config =>
      rw [hcfg] at hc'
      dsimp only at hc'
      by_cases ha : config.cards.any (fun c => c.id == cardId) = true
      · rw [if_pos ha] at hc'
        simp only [getConfig?_scheduleSave, getConfig?_setActiveBoard,
          Option.some.injEq] at hc'
        subst hc'
        exact denseOrders_renumber _
      · rw [if_neg ha] at hc'
        rw [hcfg] at hc'
        cases hc'
        exact h _ hcfg
  | updateCard cardId ch => exact absurd hop (by simp [isAddRemove])
  | addLink link => exact absurd hop (by simp [isAddRemove])
  | updateLink linkId ch => exact absurd hop (by simp [isAddRemove])
  | removeLink linkId => exact absurd hop (by simp [isAddRemove])
  | reorderCards ids => exact absurd hop (by simp [isAddRemove])
  | setViewMode mode => exact absurd hop (by simp [isAddRemove])
  | setGridColumns columns => exact absurd hop (by simp [isAddRemove])
  | setCardHeight height => exact absurd hop (by simp [isAddRemove])
  | switchBoard name => exact absurd hop (by simp [isAddRemove])
  | createBoard name => exact absurd hop (by simp [isAddRemove])
  | renameBoard o n => exact absurd hop (by simp [isAddRemove])
  | deleteBoard name => exact absurd hop (by simp [isAddRemove])

/-- C1: across any sequence of `addCard`/`removeCard` operations from a
board with dense unique orders, the active board's `order` values stay a
dense `0..N-1` permutation, and a removal renumbers the survivors
`0..N-1` along their prior-order sorted arrangement. -/
theorem order_density_invariant :
    (∀ (ops : List Op), (∀ op ∈ ops, isAddRemove op) →
      ∀ st : ManagerState, (∀ config, getConfig? st = some config → denseOrders config.cards) →
        ∀ config', getConfig? (applyOps ops st) = some config' → denseOrders config'.cards) ∧
    (∀ (st : ManagerState) (config : Board) (cardId : String),
      getConfig? st = some config → (∃ c ∈ config.cards, c.id = cardId) →
      ∃ config' sorted, getConfig? (removeCard cardId st) = some config' ∧
        sorted.Perm (config.cards.filter (fun c => c.id != cardId)) ∧
        sorted.Pairwise (fun a b => a.order ≤ b.order) ∧
        config'.cards = renumber sorted ∧
        config'.cards.map (fun c => c.order) =
          (List.range config'.cards.length).map (fun n : Nat => (n : Int))) := by
  constructor
  · intro ops
    induction ops with
    | nil =>
      intro _ st h config' hc'
      exact h config' hc'
    | cons op rest ih =>
      intro hops st h config' hc'
      rw [applyOps_cons] at hc'
      exact ih (fun o ho => hops o (List.mem_cons_of_mem op ho)) (applyOp op st)
        (addRemove_preserves_density op (hops op (List.mem_cons_self op rest)) st h)
        config' hc'
  · intro st config cardId hc hex
    have hany : config.cards.any (fun c => c.id == cardId) = true := by
      obtain ⟨c, hm, hid⟩ := hex
      exact List.any_eq_true.mpr ⟨c, hm, by simp [hid]⟩
    refine ⟨{ config with
        cards := renumber (sortCmp orderCmp (config.cards.filter (fun c => c.id != cardId)))
        links := config.links.filter (fun l => l.fromId != cardId && l.toId != cardId) },
      sortCmp orderCmp (config.cards.filter (fun c => c.id != cardId)), ?_, ?_, ?_, rfl, ?_⟩
    · simp [removeCard, hc, hany]
    · exact sortCmp_perm orderCmp _
    · refine List.Pairwise.imp (fun h => (orderCmp_le_iff _ _).mp h) ?_
      exact sortCmp_pairwise orderCmp _ (fun a _ b _ => orderCmp_total a b)
        (fun a _ b _ c _ => orderCmp_trans a b c)
    · have hfun : (fun n : Nat => (0 : Int) + (n : Int)) = fun n : Nat => (n : Int) := by
        funext n
        simp
      simp only [renumber]
      rw [map_order_renumberFrom, renumberFrom_length, hfun]

/-- Witness for C1: removing B then adding a new card on the A/B/C
board keeps orders dense, and the removal clause at B. -/
theorem order_density_invariant_witness :
    ((∀ op ∈ ([Op.removeCard "B", Op.addCard "d.md" "D"] : List Op), isAddRemove op) ∧
      (∀ config, getConfig? remState = some config → denseOrders config.cards) ∧
      getConfig? remState = some remBoard ∧ (∃ c ∈ remBoard.cards, c.id = "B")) ∧
    (∀ config', getConfig? (applyOps [Op.removeCard "B", Op.addCard "d.md" "D"] remState) = some config' →
      denseOrders config'.cards) ∧
    (∃ config' sorted, getConfig? (removeCard "B" remState) = some config' ∧
      sorted.Perm (remBoard.cards.filter (fun c => c.id != "B")) ∧
      sorted.Pairwise (fun a b => a.order ≤ b.order) ∧
      config'.cards = renumber sorted ∧
      config'.cards.map (fun c => c.order) =
        (List.range config'.cards.length).map (fun n : Nat => (n : Int))) := by
  have hops : ∀ op ∈ ([Op.removeCard "B", Op.addCard "d.md" "D"] : List Op), isAddRemove op := by
    intro op hop
    rcases List.mem_cons.mp hop with h | hop
    · rw [h]
      trivial
    rcases List.mem_cons.mp hop with h | hop
    · rw [h]
      trivial
    · simp at hop
  have hdense : ∀ config, getConfig? remState = some config → denseOrders config.cards := by
    intro config hcfg
    have : config = remBoard := by
      have h0 : getConfig? remState = some remBoard := rfl
      rw [h0] at hcfg
      exact (Option.some.injEq _ _).mp hcfg.symm
    rw [this]
    unfold denseOrders
    decide
  have hB : ∃ c ∈ remBoard.cards, c.id = "B" := by
    refine ⟨{ id := "B", filePath := "b.md", synopsis := none, label := none,
              status := none, order := 1, position := none }, ?_, rfl⟩
    simp [remBoard]
  exact ⟨⟨hops, hdense, rfl, hB⟩,
    order_density_invariant.1 [Op.removeCard "B", Op.addCard "d.md" "D"] hops remState hdense,
    order_density_invariant.2 remState remBoard "B" rfl hB⟩

/-! Connector anchor-picking lemmas. -/

theorem rectToBox_mid (l t w h : Rat) :
    Box.rightMid (rectToBox l t w h) = ⟨(rectToBox l t w h).right, (rectToBox l t w h).cy⟩ ∧
    Box.leftMid (rectToBox l t w h) = ⟨(rectToBox l t w h).left, (rectToBox l t w h).cy⟩ ∧
    Box.topMid (rectToBox l t w h) = ⟨(rectToBox l t w h).cx, (rectToBox l t w h).top⟩ ∧
    Box.bottomMid (rectToBox l t w h) = ⟨(rectToBox l t w h).cx, (rectToBox l t w h).bottom⟩ := by
  refine ⟨?_, ?_, ?_, ?_⟩ <;>
    simp only [rectToBox, Box.rightMid, Box.leftMid, Box.topMid, Box.bottomMid,
      Pt.mk.injEq] <;>
    constructor <;>
    first
      | trivial
      | ring

/-- C7: for boxes derived from card rects, a link with no explicit
anchors attaches at the facing right/left edge midpoints when the
horizontal center displacement dominates (in magnitude, ties included),
and at the facing bottom/top edge midpoints otherwise. -/
theorem pick_anchors_dominant_axis (F T : Box) (l1 t1 w1 h1 l2 t2 w2 h2 : Rat)
    (hF : F = rectToBox l1 t1 w1 h1) (hT : T = rectToBox l2 t2 w2 h2) :
    (|T.cx - F.cx| ≥ |T.cy - F.cy| → T.cx - F.cx ≥ 0 →
        pickAnchors F T = (Box.rightMid F, Box.leftMid T)) ∧
    (|T.cx - F.cx| ≥ |T.cy - F.cy| → T.cx - F.cx < 0 →
        pickAnchors F T = (Box.leftMid F, Box.rightMid T)) ∧
    (¬(|T.cx - F.cx| ≥ |T.cy - F.cy|) → T.cy - F.cy ≥ 0 →
        pickAnchors F T = (Box.bottomMid F, Box.topMid T)) ∧
    (¬(|T.cx - F.cx| ≥ |T.cy - F.cy|) → T.cy - F.cy < 0 →
        pickAnchors F T = (Box.topMid F, Box.bottomMid T)) := by
  subst hF hT
  have hm1 := rectToBox_mid l1 t1 w1 h1
  have hm2 := rectToBox_mid l2 t2 w2 h2
  refine ⟨?_, ?_, ?_, ?_⟩
  · intro hd hx
    rw [hm1.1, hm2.2.1]
    simp only [pickAnchors]
    rw [if_pos hd, if_pos hx]
  · intro hd hx
    rw [hm1.2.1, hm2.1]
    simp only [pickAnchors]
    rw [if_pos hd, if_neg (not_le.mpr hx)]
  · intro hd hy
    rw [hm1.2.2.2, hm2.2.2.1]
    simp only [pickAnchors]
    rw [if_neg hd, if_pos hy]
  · intro hd hy
    rw [hm1.2.2.1, hm2.2.2.2]
    simp only [pickAnchors]
    rw [if_neg hd, if_neg (not_le.mpr hy)]

/-- Witness for C7: card P left of card Q picks P-right/Q-left; after
moving Q far below P the recomputed anchors flip to P-bottom/Q-top. -/
theorem pick_anchors_dominant_axis_witness :
    (|(rectToBox 300 0 100 50).cx - (rectToBox 0 0 100 50).cx| ≥
        |(rectToBox 300 0 100 50).cy - (rectToBox 0 0 100 50).cy| ∧
      (rectToBox 300 0 100 50).cx - (rectToBox 0 0 100 50).cx ≥ 0 ∧
      pickAnchors (rectToBox 0 0 100 50) (rectToBox 300 0 100 50) =
        (Box.rightMid (rectToBox 0 0 100 50), Box.leftMid (rectToBox 300 0 100 50))) ∧
    (¬(|(rectToBox 0 500 100 50).cx - (rectToBox 0 0 100 50).cx| ≥
        |(rectToBox 0 500 100 50).cy - (rectToBox 0 0 100 50).cy|) ∧
      (rectToBox 0 500 100 50).cy - (rectToBox 0 0 100 50).cy ≥ 0 ∧
      pickAnchors (rectToBox 0 0 100 50) (rectToBox 0 500 100 50) =
        (Box.bottomMid (rectToBox 0 0 100 50), Box.topMid (rectToBox 0 500 100 50))) := by
  have h1 : |(rectToBox 300 0 100 50).cx - (rectToBox 0 0 100 50).cx| ≥
      |(rectToBox 300 0 100 50).cy - (rectToBox 0 0 100 50).cy| := by
    norm_num [rectToBox]
  have h2 : (rectToBox 300 0 100 50).cx - (rectToBox 0 0 100 50).cx ≥ 0 := by
    norm_num [rectToBox]
  have h3 : ¬(|(rectToBox 0 500 100 50).cx - (rectToBox 0 0 100 50).cx| ≥
      |(rectToBox 0 500 100 50).cy - (rectToBox 0 0 100 50).cy|) := by
    norm_num [rectToBox]
  have h4 : (rectToBox 0 500 100 50).cy - (rectToBox 0 0 100 50).cy ≥ 0 := by
    norm_num [rectToBox]
  refine ⟨⟨h1, h2, ?_⟩, ⟨h3, h4, ?_⟩⟩
  · exact (pick_anchors_dominant_axis _ _ 0 0 100 50 300 0 100 50 rfl rfl).1 h1 h2
  · exact (pick_anchors_dominant_axis _ _ 0 0 100 50 0 500 100 50 rfl rfl).2.2.1 h3 h4

/-! Snap-axis lemmas. -/

theorem snapStep_eq (rawPos size : Rat) (best : Rat × Rat) (target : Rat) :
    snapStep rawPos size best target =
      (if |rawPos + size - target| ≤ SNAP_THRESHOLD ∧
          |rawPos + size - target| <
            (if |rawPos - target| ≤ SNAP_THRESHOLD ∧ |rawPos - target| < best.2
              then (target, |rawPos - target|) else best).2
        then (target - size, |rawPos + size - target|)
        else if |rawPos - target| ≤ SNAP_THRESHOLD ∧ |rawPos - target| < best.2
          then (target, |rawPos - target|) else best) := rfl

theorem foldl_snapStep_locked (rawPos size t d : Rat) (l : List Rat)
    (hd : d = |rawPos - t|) (hthr : d ≤ 7)
    (hleft : ∀ t' ∈ l, t' ≠ t → d < |rawPos - t'|)
    (hright : ∀ t' ∈ l, d < |rawPos + size - t'|) :
    ∀ acc : Rat × Rat, (acc = (t, d) ∨ (t ∈ l ∧ d < acc.2)) →
      l.foldl (snapStep rawPos size) acc = (t, d) := by
  induction l with
  | nil =>
    intro acc hinv
    rcases hinv with h | ⟨h, _⟩
    · simpa using h
    · simp at h
  | cons x xs ih =>
    intro acc hinv
    have hleft' : ∀ t' ∈ xs, t' ≠ t → d < |rawPos - t'| :=
      fun t' h ht' => hleft t' (List.mem_cons_of_mem x h) ht'
    have hright' : ∀ t' ∈ xs, d < |rawPos + size - t'| :=
      fun t' h => hright t' (List.mem_cons_of_mem x h)
    have hxr : d < |rawPos + size - x| := hright x (List.mem_cons_self x xs)
    have hRnot : ¬(|rawPos + size - x| < d) := not_lt.mpr (le_of_lt hxr)
    rw [List.foldl_cons]
    rcases hinv with hacc | ⟨hmem, hlt⟩
    · subst hacc
      have hnotlt : ¬(|rawPos - x| < d) := by
        by_cases hx : x = t
        · subst hx
          rw [← hd]
          exact lt_irrefl d
        · exact not_lt.mpr (le_of_lt (hleft x (List.mem_cons_self x xs) hx))
      have hL : ¬(|rawPos - x| ≤ SNAP_THRESHOLD ∧ |rawPos - x| < ((t, d) : Rat × Rat).2) :=
        fun h => hnotlt h.2
      have hstep : snapStep rawPos size (t, d) x = (t, d) := by
        rw [snapStep_eq]
        simp only [if_neg hL]
        exact if_neg (fun h => hRnot h.2)
      rw [hstep]
      exact ih hleft' hright' (t, d) (Or.inl rfl)
    · by_cases hx : x = t
      · subst hx
        have hL : |rawPos - x| ≤ SNAP_THRESHOLD ∧ |rawPos - x| < acc.2 := by
          rw [← hd]
          refine ⟨?_, hlt⟩
          have : (7 : Rat) ≤ SNAP_THRESHOLD := by norm_num [SNAP_THRESHOLD]
          linarith
        have hstep : snapStep rawPos size acc x = (x, d) := by
          rw [snapStep_eq]
          simp only [if_pos hL]
          have hR : ¬(|rawPos + size - x| ≤ SNAP_THRESHOLD ∧
              |rawPos + size - x| < ((x, |rawPos - x|) : Rat × Rat).2) := by
            intro h
            rw [← hd] at h
            exact hRnot h.2
          rw [if_neg hR, ← hd]
        rw [hstep]
        exact ih hleft' hright' (x, d) (Or.inl rfl)
      · have hmem' : t ∈ xs := by
          rcases List.mem_cons.mp hmem with h | h
          · exact absurd h.symm hx
          · exact h
        have hgt : d < |rawPos - x| := hleft x (List.mem_cons_self x xs) hx
        have hstep : d < (snapStep rawPos size acc x).2 := by
          rw [snapStep_eq]
          by_cases h1 : |rawPos - x| ≤ SNAP_THRESHOLD ∧ |rawPos - x| < acc.2
          · simp only [if_pos h1]
            by_cases h2 : |rawPos + size - x| ≤ SNAP_THRESHOLD ∧
                |rawPos + size - x| < ((x, |rawPos - x|) : Rat × Rat).2
            · rw [if_pos h2]
              exact hxr
            · rw [if_neg h2]
              exact hgt
          · simp only [if_neg h1]
            by_cases h2 : |rawPos + size - x| ≤ SNAP_THRESHOLD ∧ |rawPos + size - x| < acc.2
            · rw [if_pos h2]
              exact hxr
            · rw [if_neg h2]
              exact hlt
        exact ih hleft' hright' _ (Or.inr ⟨hmem', hstep⟩)

/-- C6 as amended: with snapping active, when the dragged card's left
edge is within 7px of a candidate edge and every other candidate pairing
(with either the leading or the trailing edge) is strictly farther, the
snapped x-position equals that candidate edge exactly. -/
theorem snap_nearest_edge_wins (x y dragWidth dragHeight t : Rat) (tx ty : List Rat)
    (ht : t ∈ tx) (hw : dragWidth ≠ 0) (ht0 : 0 ≤ t)
    (hthr : |x - t| ≤ 7)
    (hleft : ∀ t' ∈ tx, t' ≠ t → |x - t| < |x - t'|)
    (hright : ∀ t' ∈ tx, |x - t| < |x + dragWidth - t'|) :
    snapAxis x dragWidth tx = t ∧
      (getSnappedPosition x y dragWidth dragHeight tx ty).1 = t := by
  have hsnap : snapAxis x dragWidth tx = t := by
    unfold snapAxis
    rw [if_neg (by simp [List.ne_nil_of_mem ht, hw])]
    rw [foldl_snapStep_locked x dragWidth t (|x - t|) tx rfl hthr hleft hright
      (x, SNAP_THRESHOLD + 1) (Or.inr ⟨ht, by
        calc |x - t| ≤ 7 := hthr
          _ < SNAP_THRESHOLD + 1 := by norm_num [SNAP_THRESHOLD]⟩)]
  refine ⟨hsnap, ?_⟩
  unfold getSnappedPosition
  rw [hsnap]
  exact max_eq_right ht0

/-- Witness for the amended C6: the left edge at 10 sits 6px from the
unique nearest candidate edge 16 (card width 100, other candidate far on
both pairings). -/
theorem snap_nearest_edge_wins_witness :
    ((16:Rat) ∈ ([40, 16] : List Rat) ∧ (100:Rat) ≠ 0 ∧ (0:Rat) ≤ 16 ∧
      |(10:Rat) - 16| ≤ 7 ∧
      (∀ t' ∈ ([40, 16] : List Rat), t' ≠ 16 → |(10:Rat) - 16| < |(10:Rat) - t'|) ∧
      (∀ t' ∈ ([40, 16] : List Rat), |(10:Rat) - 16| < |(10:Rat) + 100 - t'|)) ∧
    snapAxis 10 100 [40, 16] = 16 ∧
    (getSnappedPosition 10 20 100 50 [40, 16] [7]).1 = 16 := by
  have h1 : (16:Rat) ∈ ([40, 16] : List Rat) := by simp
  have h2 : (100:Rat) ≠ 0 := by norm_num
  have h3 : (0:Rat) ≤ 16 := by norm_num
  have h4 : |(10:Rat) - 16| ≤ 7 := by norm_num
  have h5 : ∀ t' ∈ ([40, 16] : List Rat), t' ≠ 16 → |(10:Rat) - 16| < |(10:Rat) - t'| := by
    intro t' ht' hne
    fin_cases ht'
    · norm_num
    · exact absurd rfl hne
  have h6 : ∀ t' ∈ ([40, 16] : List Rat), |(10:Rat) - 16| < |(10:Rat) + 100 - t'| := by
    intro t' ht'
    fin_cases ht' <;> norm_num
  exact ⟨⟨h1, h2, h3, h4, h5, h6⟩,
    snap_nearest_edge_wins 10 20 100 50 16 [40, 16] [7] h1 h2 h3 h4 h5 h6⟩

/-- Counterexample to C6 as stated: the candidate edge 16 is within 7px
of the dragged left edge (at 10) and no other candidate lies nearer on
either pairing, yet the snap resolves to the equally distant,
earlier-listed candidate 4, not 16. -/
theorem snap_equal_distance_counterexample :
    |(10:Rat) - 16| ≤ 7 ∧
    (∀ t' ∈ ([4, 16] : List Rat), ¬(|(10:Rat) - t'| < |(10:Rat) - 16|)) ∧
    (∀ t' ∈ ([4, 16] : List Rat), ¬(|(10:Rat) + 100 - t'| < |(10:Rat) - 16|)) ∧
    snapAxis 10 100 [4, 16] = 4 ∧ (4:Rat) ≠ 16 := by
  refine ⟨by norm_num, ?_, ?_, ?_, by norm_num⟩
  · intro t' ht'
    fin_cases ht' <;> norm_num
  · intro t' ht'
    fin_cases ht' <;> norm_num
  · unfold snapAxis
    rw [if_neg (not_or.mpr ⟨by simp, by norm_num⟩)]
    norm_num [snapStep, SNAP_THRESHOLD, List.foldl]

/-! Commit-order lemmas. -/

theorem RootWF_setActiveBoard (st : ManagerState) (b : Board)
    (hnd : (st.root.boards.map Prod.fst).Nodup) :
    RootWF (setActiveBoard st b).root := by
  constructor
  · show ((setKeyA st.root.boards st.root.activeBoard b).map Prod.fst).Nodup
    by_cases hmem : st.root.activeBoard ∈ st.root.boards.map Prod.fst
    · rw [setKeyA_map_fst_of_mem b hmem]
      exact hnd
    · rw [setKeyA_map_fst_of_not_mem b hmem]
      simp only [List.nodup_append, List.nodup_singleton, true_and]
      refine ⟨hnd, ?_⟩
      intro x hx hx1
      simp only [List.mem_singleton] at hx1
      exact hmem (hx1 ▸ hx)
  · show (lookupA (setKeyA st.root.boards st.root.activeBoard b) st.root.activeBoard).isSome
      = true
    rw [lookupA_setKeyA_self]
    rfl

theorem RootWF_mutate (st : ManagerState) (b : Board)
    (hnd : (st.root.boards.map Prod.fst).Nodup) :
    RootWF (scheduleSave (setActiveBoard (pushHistory st) b)).root := by
  rw [scheduleSave_root]
  refine RootWF_setActiveBoard (pushHistory st) b ?_
  rw [pushHistory_root]
  exact hnd

theorem applyOp_WF (op : Op) (st : ManagerState) (hwf : RootWF st.root) :
    RootWF (applyOp op st).root := by
  cases op with
  | addCard fp newId =>
    simp only [applyOp, addCard]
    cases h : getConfig? st with
    | none => exact hwf
    | some config =>
      dsimp only
      cases hf : config.cards.find? (fun c => c.filePath == fp) with
      | some c => exact hwf
      | none => exact RootWF_mutate st _ hwf.1
  | removeCard cardId =>
    simp only [applyOp, removeCard]
    cases h : getConfig? st with
    | none => exact hwf
    | some config =>
      dsimp only
      by_cases ha : config.cards.any (fun c => c.id == cardId) = true
      · rw [if_pos ha]
        exact RootWF_mutate st _ hwf.1
      · rw [if_neg ha]
        exact hwf
  | updateCard cardId ch =>
    simp only [applyOp, updateCard]
    cases h : getConfig? st with
    | none => exact hwf
    | some config =>
      dsimp only
      cases hf : config.cards.find? (fun c => c.id == cardId) with
      | none => exact hwf
      | some card =>
        dsimp only
        by_cases hch : cardHasChange card ch = true
        · rw [if_pos hch]
          exact RootWF_mutate st _ hwf.1
        · rw [if_neg hch]
          exact hwf
  | addLink link =>
    simp only [applyOp, addLink]
    cases h : getConfig? st with
    | none => exact hwf
    | some config => exact RootWF_mutate st _ hwf.1
  | updateLink linkId ch =>
    simp only [applyOp, updateLink]
    cases h : getConfig? st with
    | none => exact hwf
    | some config =>
      dsimp only
      cases hf : config.links.find? (fun l => l.id == linkId) with
      | none => exact hwf
      | some link =>
        dsimp only
        by_cases hch : linkHasChange link ch = true
        · rw [if_pos hch]
          exact RootWF_mutate st _ hwf.1
        · rw [if_neg hch]
          exact hwf
  | removeLink linkId =>
    simp only [applyOp, removeLink]
    cases h : getConfig? st with
    | none => exact hwf
    | some config =>
      dsimp only
      by_cases ha : config.links.any (fun l => l.id == linkId) = true
      · rw [if_pos ha]
        exact RootWF_mutate st _ hwf.1
      · rw [if_neg ha]
        exact hwf
  | reorderCards ids =>
    simp only [applyOp, reorderCards]
    cases h : getConfig? st with
    | none => exact hwf
    | some config => exact RootWF_mutate st _ hwf.1
  | setViewMode mode =>
    simp only [applyOp, setViewMode]
    cases h : getConfig? st with
    | none => exact hwf
    | some config =>
      dsimp only
      by_cases he : config.viewMode = mode
      · rw [if_pos he]
        exact hwf
      · rw [if_neg he]
        exact RootWF_mutate st _ hwf.1
  | setGridColumns columns =>
    simp only [applyOp, setGridColumns]
    cases h : getConfig? st with
    | none => exact hwf
    | some config =>
      dsimp only
      by_cases he : config.gridColumns = columns
      · rw [if_pos he]
        exact hwf
      · rw [if_neg he]
        exact RootWF_mutate st _ hwf.1
  | setCardHeight height =>
    simp only [applyOp, setCardHeight]
    cases h : getConfig? st with
    | none => exact hwf
    | some config =>
      dsimp only
      by_cases he : config.cardHeight = height
      · rw [if_pos he]
        exact hwf
      · rw [if_neg he]
        exact RootWF_mutate st _ hwf.1
  | switchBoard name =>
    simp only [applyOp, switchBoard]
    cases h : lookupA st.root.boards name with
    | none => exact hwf
    | some b =>
      dsimp only
      by_cases he : st.root.activeBoard = name
      · rw [if_pos he]
        exact hwf
      · rw [if_neg he]
        rw [scheduleSave_root]
        simp only [pushHistory_root]
        refine ⟨hwf.1, ?_⟩
        show (lookupA st.root.boards name).isSome = true
        rw [h]
        rfl
  | createBoard name =>
    simp only [applyOp, createBoard]
    cases h : lookupA st.root.boards name with
    | some b => exact hwf
    | none =>
      dsimp only
      rw [scheduleSave_root]
      simp only [pushHistory_root]
      have hnotmem : name ∉ st.root.boards.map Prod.fst := lookupA_eq_none_iff.mp h
      constructor
      · show ((setKeyA st.root.boards name createDefaultBoardConfig).map Prod.fst).Nodup
        rw [setKeyA_map_fst_of_not_mem _ hnotmem]
        simp only [List.nodup_append, List.nodup_singleton, true_and]
        refine ⟨hwf.1, ?_⟩
        intro x hx hx1
        simp only [List.mem_singleton] at hx1
        exact hnotmem (hx1 ▸ hx)
      · show (lookupA (setKeyA st.root.boards name createDefaultBoardConfig)
            st.root.activeBoard).isSome = true
        have hne : st.root.activeBoard ≠ name := by
          intro he
          exact hnotmem (he ▸ lookupA_isSome_iff.mp hwf.2)
        rw [lookupA_setKeyA_ne _ hne]
        exact hwf.2
  | renameBoard o n =>
    simp only [applyOp, renameBoard]
    cases h : lookupA st.root.boards o with
    | none => exact hwf
    | some b =>
      dsimp only
      cases h2 : lookupA st.root.boards n with
      | some b2 => exact hwf
      | none =>
        dsimp only
        rw [scheduleSave_root]
        simp only [pushHistory_root]
        have hmemo : o ∈ st.root.boards.map Prod.fst :=
          lookupA_isSome_iff.mp (by rw [h]; rfl)
        have hnotn : n ∉ st.root.boards.map Prod.fst := lookupA_eq_none_iff.mp h2
        have hon : o ≠ n := fun he => hnotn (he ▸ hmemo)
        have hnd1 : ((setKeyA st.root.boards n b).map Prod.fst).Nodup := by
          rw [setKeyA_map_fst_of_not_mem _ hnotn]
          simp only [List.nodup_append, List.nodup_singleton, true_and]
          refine ⟨hwf.1, ?_⟩
          intro x hx hx1
          simp only [List.mem_singleton] at hx1
          exact hnotn (hx1 ▸ hx)
        constructor
        · show ((eraseKeyA (setKeyA st.root.boards n b) o).map Prod.fst).Nodup
          rw [eraseKeyA_map_fst]
          exact hnd1.filter _
        · by_cases hao : st.root.activeBoard = o
          · show (lookupA (eraseKeyA (setKeyA st.root.boards n b) o)
                (if st.root.activeBoard = o then n else st.root.activeBoard)).isSome = true
            rw [if_pos hao]
            rw [lookupA_eraseKeyA_ne (fun he => hon he.symm)]
            rw [lookupA_setKeyA_self]
            rfl
          · show (lookupA (eraseKeyA (setKeyA st.root.boards n b) o)
                (if st.root.activeBoard = o then n else st.root.activeBoard)).isSome = true
            rw [if_neg hao]
            rw [lookupA_eraseKeyA_ne hao]
            have hactn : st.root.activeBoard ≠ n := by
              intro he
              exact hnotn (he ▸ lookupA_isSome_iff.mp hwf.2)
            rw [lookupA_setKeyA_ne _ hactn]
            exact hwf.2
  | deleteBoard name =>
    simp only [applyOp, deleteBoard]
    by_cases hl : st.root.boards.length ≤ 1
    · rw [if_pos hl]
      exact hwf
    · rw [if_neg hl]
      cases h : lookupA st.root.boards name with
      | none => exact hwf
      | some b =>
        dsimp only
        rw [scheduleSave_root]
        simp only [pushHistory_root]
        have hnd1 : ((eraseKeyA st.root.boards name).map Prod.fst).Nodup := by
          rw [eraseKeyA_map_fst]
          exact hwf.1.filter _
        constructor
        · exact hnd1
        · by_cases han : st.root.activeBoard = name
          · show (lookupA (eraseKeyA st.root.boards name)
                (if st.root.activeBoard = name
                  then ((eraseKeyA st.root.boards name).map Prod.fst).headD st.root.activeBoard
                  else st.root.activeBoard)).isSome = true
            rw [if_pos han]
            have hne : eraseKeyA st.root.boards name ≠ [] :=
              eraseKeyA_ne_nil hwf.1 (by omega)
            cases herase : eraseKeyA st.root.boards name with
            | nil => exact absurd herase hne
            | cons e t =>
              show (lookupA (e :: t) ((e.1 :: t.map Prod.fst).headD _)).isSome = true
              show (lookupA (e :: t) e.1).isSome = true
              obtain ⟨k0, v0⟩ := e
              simp [lookupA]
          · show (lookupA (eraseKeyA st.root.boards name)
                (if st.root.activeBoard = name
                  then ((eraseKeyA st.root.boards name).map Prod.fst).headD st.root.activeBoard
                  else st.root.activeBoard)).isSome = true
            rw [if_neg han]
            rw [lookupA_eraseKeyA_ne han]
            exact hwf.2

/-! What a pushing operation does to the stacks. -/

theorem pushed_mutate (st : ManagerState) (b : Board) (hr : st.isRestoring = false)
    (hlen : st.undoStack.length < maxHistory) :
    (scheduleSave (setActiveBoard (pushHistory st) b)).undoStack = st.undoStack ++ [st.root] ∧
    (scheduleSave (setActiveBoard (pushHistory st) b)).redoStack = [] ∧
    (scheduleSave (setActiveBoard (pushHistory st) b)).isRestoring = false := by
  have h := pushHistory_undoStack_of_lt st hr hlen
  exact ⟨by simp [h.1], by simp [h.2], by simp [hr]⟩

theorem pushed_setRoot (st : ManagerState) (r : RootConfig) (hr : st.isRestoring = false)
    (hlen : st.undoStack.length < maxHistory) :
    (scheduleSave { pushHistory st with root := r }).undoStack = st.undoStack ++ [st.root] ∧
    (scheduleSave { pushHistory st with root := r }).redoStack = [] ∧
    (scheduleSave { pushHistory st with root := r }).isRestoring = false := by
  have h := pushHistory_undoStack_of_lt st hr hlen
  refine ⟨?_, ?_, ?_⟩
  · show (pushHistory st).undoStack = st.undoStack ++ [st.root]
    exact h.1
  · show (pushHistory st).redoStack = []
    exact h.2
  · show (pushHistory st).isRestoring = false
    rw [pushHistory_isRestoring]
    exact hr

theorem applyOp_pushed (op : Op) (st : ManagerState)
    (hp : opPushes op st = true) (hr : st.isRestoring = false)
    (hlen : st.undoStack.length < maxHistory) :
    (applyOp op st).undoStack = st.undoStack ++ [st.root] ∧
    (applyOp op st).redoStack = [] ∧
    (applyOp op st).isRestoring = false := by
  cases op with
  | addCard fp newId =>
    simp only [applyOp, addCard]
    simp only [opPushes] at hp
    cases h : getConfig? st with
    | none =>
      rw [h] at hp
      cases hp
    | some config =>
      rw [h] at hp
      dsimp only at hp ⊢
      cases hf : config.cards.find? (fun c => c.filePath == fp) with
      | some c =>
        rw [hf] at hp
        cases hp
      | none =>
        exact pushed_mutate st _ hr hlen
  | removeCard cardId =>
    simp only [applyOp, removeCard]
    simp only [opPushes] at hp
    cases h : getConfig? st with
    | none =>
      rw [h] at hp
      cases hp
    | some config =>
      rw [h] at hp
      dsimp only at hp ⊢
      rw [if_pos hp]
      exact pushed_mutate st _ hr hlen
  | updateCard cardId ch =>
    simp only [applyOp, updateCard]
    simp only [opPushes] at hp
    cases h : getConfig? st with
    | none =>
      rw [h] at hp
      cases hp
    | some config =>
      rw [h] at hp
      dsimp only at hp ⊢
      cases hf : config.cards.find? (fun c => c.id == cardId) with
      | none =>
        rw [hf] at hp
        cases hp
      | some card =>
        rw [hf] at hp
        dsimp only at hp ⊢
        rw [if_pos hp]
        exact pushed_mutate st _ hr hlen
  | addLink link =>
    simp only [applyOp, addLink]
    simp only [opPushes] at hp
    cases h : getConfig? st with
    | none =>
      rw [h] at hp
      cases hp
    | some config =>
      exact pushed_mutate st _ hr hlen
  | updateLink linkId ch =>
    simp only [applyOp, updateLink]
    simp only [opPushes] at hp
    cases h : getConfig? st with
    | none =>
      rw [h] at hp
      cases hp
    | some config =>
      rw [h] at hp
      dsimp only at hp ⊢
      cases hf : config.links.find? (fun l => l.id == linkId) with
      | none =>
        rw [hf] at hp
        cases hp
      | some link =>
        rw [hf] at hp
        dsimp only at hp ⊢
        rw [if_pos hp]
        exact pushed_mutate st _ hr hlen
  | removeLink linkId =>
    simp only [applyOp, removeLink]
    simp only [opPushes] at hp
    cases h : getConfig? st with
    | none =>
      rw [h] at hp
      cases hp
    | some config =>
      rw [h] at hp
      dsimp only at hp ⊢
      rw [if_pos hp]
      exact pushed_mutate st _ hr hlen
  | reorderCards ids =>
    simp only [applyOp, reorderCards]
    simp only [opPushes] at hp
    cases h : getConfig? st with
    | none =>
      rw [h] at hp
      cases hp
    | some config =>
      exact pushed_mutate st _ hr hlen
  | setViewMode mode =>
    simp only [applyOp, setViewMode]
    simp only [opPushes] at hp
    cases h : getConfig? st with
    | none =>
      rw [h] at hp
      cases hp
    | some config =>
      rw [h] at hp
      dsimp only at hp ⊢
      rw [if_neg (by simpa using hp)]
      exact pushed_mutate st _ hr hlen
  | setGridColumns columns =>
    simp only [applyOp, setGridColumns]
    simp only [opPushes] at hp
    cases h : getConfig? st with
    | none =>
      rw [h] at hp
      cases hp
    | some config =>
      rw [h] at hp
      dsimp only at hp ⊢
      rw [if_neg (by simpa using hp)]
      exact pushed_mutate st _ hr hlen
  | setCardHeight height =>
    simp only [applyOp, setCardHeight]
    simp only [opPushes] at hp
    cases h : getConfig? st with
    | none =>
      rw [h] at hp
      cases hp
    | some config =>
      rw [h] at hp
      dsimp only at hp ⊢
      rw [if_neg (by simpa using hp)]
      exact pushed_mutate st _ hr hlen
  | switchBoard name =>
    simp only [applyOp, switchBoard]
    simp only [opPushes, Bool.and_eq_true] at hp
    cases h : lookupA st.root.boards name with
    | none =>
      rw [h] at hp
      simp at hp
    | some b =>
      dsimp only
      rw [if_neg (by simpa using hp.2)]
      exact pushed_setRoot st _ hr hlen
  | createBoard name =>
    simp only [applyOp, createBoard]
    simp only [opPushes] at hp
    cases h : lookupA st.root.boards name with
    | some b =>
      rw [h] at hp
      simp at hp
    | none =>
      dsimp only
      exact pushed_setRoot st _ hr hlen
  | renameBoard o n =>
    simp only [applyOp, renameBoard]
    simp only [opPushes, Bool.and_eq_true] at hp
    cases h : lookupA st.root.boards o with
    | none =>
      rw [h] at hp
      simp at hp
    | some b =>
      dsimp only
      cases h2 : lookupA st.root.boards n with
      | some b2 =>
        rw [h2] at hp
        simp at hp
      | none =>
        dsimp only
        exact pushed_setRoot st _ hr hlen
  | deleteBoard name =>
    simp only [applyOp, deleteBoard]
    simp only [opPushes, Bool.and_eq_true] at hp
    have hl : ¬st.root.boards.length ≤ 1 := by
      have := hp.1
      simp only [decide_eq_true_eq] at this
      omega
    rw [if_neg hl]
    cases h : lookupA st.root.boards name with
    | none =>
      rw [h] at hp
      simp at hp
    | some b =>
      dsimp only
      exact pushed_setRoot st _ hr hlen

/-! History-chain characterization and the undo/redo round trip. -/

theorem chainRoots_length : ∀ (ops : List Op) (st : ManagerState),
    (chainRoots st ops).length = ops.length
  | [], _ => rfl
  | _ :: rest, st => by
    simp only [chainRoots, List.length_cons]
    rw [chainRoots_length rest _]

theorem applyOps_chain (ops : List Op) : ∀ (st : ManagerState),
    st.isRestoring = false → RootWF st.root → pushesAll st ops = true →
    st.undoStack.length + ops.length ≤ maxHistory →
    (applyOps ops st).undoStack = st.undoStack ++ chainRoots st ops ∧
    (ops ≠ [] → (applyOps ops st).redoStack = []) ∧
    (applyOps ops st).isRestoring = false ∧
    RootWF (applyOps ops st).root ∧
    (∀ r ∈ chainRoots st ops, RootWF r) := by
  induction ops with
  | nil =>
    intro st h1 h2 _ _
    exact ⟨by simp [applyOps, chainRoots], fun h => absurd rfl h, h1, h2,
      by simp [chainRoots]⟩
  | cons op rest ih =>
    intro st hres hwf hp hlen
    simp only [pushesAll, Bool.and_eq_true] at hp
    have hlen1 : st.undoStack.length < maxHistory := by
      simp only [List.length_cons] at hlen
      omega
    have hpd := applyOp_pushed op st hp.1 hres hlen1
    have hwf1 := applyOp_WF op st hwf
    have hlen2 : (applyOp op st).undoStack.length + rest.length ≤ maxHistory := by
      rw [hpd.1]
      simp only [List.length_append, List.length_cons, List.length_nil] at hlen ⊢
      omega
    have hih := ih (applyOp op st) hpd.2.2 hwf1 hp.2 hlen2
    rw [applyOps_cons]
    refine ⟨?_, ?_, hih.2.2.1, hih.2.2.2.1, ?_⟩
    · rw [hih.1, hpd.1]
      simp [chainRoots]
    · intro _
      rcases eq_or_ne rest [] with hre | hre
      · subst hre
        exact hpd.2.1
      · exact hih.2.1 hre
    · intro r hr
      simp only [chainRoots, List.mem_cons] at hr
      rcases hr with hr | hr
      · rw [hr]
        exact hwf
      · exact hih.2.2.2.2 r hr

theorem undo_iter : ∀ (k : Nat) (s : ManagerState) (r : RootConfig)
    (rest : List RootConfig),
    s.undoStack = r :: rest → rest.length + 1 = k →
    (∀ x ∈ s.undoStack, RootWF x) →
    undoStep^[k] s =
      { root := r, undoStack := [],
        redoStack := s.redoStack ++ s.root :: rest.reverse,
        pendingSave := s.pendingSave, isRestoring := s.isRestoring } := by
  intro k
  induction k with
  | zero =>
    intro s r rest hs hk
    exact absurd hk (by omega)
  | succ k ihk =>
    intro s r rest hs hk hWF
    rcases List.eq_nil_or_concat rest with hrest | ⟨init, lastE, hrest⟩
    · subst hrest
      have hk0 : k = 0 := by
        simp only [List.length_nil] at hk
        omega
      subst hk0
      rw [Function.iterate_one]
      have hwfr : RootWF r := hWF r (by rw [hs]; exact List.mem_cons_self _ _)
      obtain ⟨b, hb⟩ := Option.isSome_iff_exists.mp hwfr.2
      unfold undoStep undo
      have hgl : s.undoStack.getLast? = some r := by
        rw [hs]
        rfl
      rw [hgl]
      dsimp only
      unfold applySnapshot
      rw [hb]
      dsimp only
      rw [hs]
      simp
    · subst hrest
      rw [List.concat_eq_append] at hs hk
      have hklen : init.length + 1 = k := by
        simp only [List.length_append, List.length_cons, List.length_nil] at hk
        omega
      have hlastwf : RootWF lastE := hWF lastE (by rw [hs]; simp)
      obtain ⟨b, hb⟩ := Option.isSome_iff_exists.mp hlastwf.2
      have hgl : s.undoStack.getLast? = some lastE := by
        rw [hs, show r :: (init ++ [lastE]) = (r :: init) ++ [lastE] by simp]
        exact List.getLast?_concat _
      have hdl : s.undoStack.dropLast = r :: init := by
        rw [hs, show r :: (init ++ [lastE]) = (r :: init) ++ [lastE] by simp]
        exact List.dropLast_concat
      have hstep : undoStep s =
          { root := lastE, undoStack := r :: init,
            redoStack := s.redoStack ++ [s.root], pendingSave := s.pendingSave,
            isRestoring := s.isRestoring } := by
        unfold undoStep undo
        rw [hgl]
        dsimp only
        unfold applySnapshot
        rw [hb]
        dsimp only
        rw [hdl]
      rw [Function.iterate_succ_apply, hstep]
      have hWF' : ∀ x ∈ r :: init, RootWF x := by
        intro x hx
        refine hWF x ?_
        rw [hs]
        simp only [List.mem_cons, List.mem_append] at hx ⊢
        rcases hx with hx | hx
        · exact Or.inl hx
        · exact Or.inr (Or.inl hx)
      rw [ihk _ r init rfl hklen hWF']
      simp [List.reverse_append]

theorem redo_iter : ∀ (k : Nat) (s : ManagerState) (r : RootConfig)
    (rest : List RootConfig),
    s.redoStack = r :: rest → rest.length + 1 = k →
    (∀ x ∈ s.redoStack, RootWF x) →
    redoStep^[k] s =
      { root := r, redoStack := [],
        undoStack := s.undoStack ++ s.root :: rest.reverse,
        pendingSave := s.pendingSave, isRestoring := s.isRestoring } := by
  intro k
  induction k with
  | zero =>
    intro s r rest hs hk
    exact absurd hk (by omega)
  | succ k ihk =>
    intro s r rest hs hk hWF
    rcases List.eq_nil_or_concat rest with hrest | ⟨init, lastE, hrest⟩
    · subst hrest
      have hk0 : k = 0 := by
        simp only [List.length_nil] at hk
        omega
      subst hk0
      rw [Function.iterate_one]
      have hwfr : RootWF r := hWF r (by rw [hs]; exact List.mem_cons_self _ _)
      obtain ⟨b, hb⟩ := Option.isSome_iff_exists.mp hwfr.2
      unfold redoStep redo
      have hgl : s.redoStack.getLast? = some r := by
        rw [hs]
        rfl
      rw [hgl]
      dsimp only
      unfold applySnapshot
      rw [hb]
      dsimp only
      rw [hs]
      simp
    · subst hrest
      rw [List.concat_eq_append] at hs hk
      have hklen : init.length + 1 = k := by
        simp only [List.length_append, List.length_cons, List.length_nil] at hk
        omega
      have hlastwf : RootWF lastE := hWF lastE (by rw [hs]; simp)
      obtain ⟨b, hb⟩ := Option.isSome_iff_exists.mp hlastwf.2
      have hgl : s.redoStack.getLast? = some lastE := by
        rw [hs, show r :: (init ++ [lastE]) = (r :: init) ++ [lastE] by simp]
        exact List.getLast?_concat _
      have hdl : s.redoStack.dropLast = r :: init := by
        rw [hs, show r :: (init ++ [lastE]) = (r :: init) ++ [lastE] by simp]
        exact List.dropLast_concat
      have hstep : redoStep s =
          { root := lastE, redoStack := r :: init,
            undoStack := s.undoStack ++ [s.root], pendingSave := s.pendingSave,
            isRestoring := s.isRestoring } := by
        unfold redoStep redo
        rw [hgl]
        dsimp only
        unfold applySnapshot
        rw [hb]
        dsimp only
        rw [hdl]
      rw [Function.iterate_succ_apply, hstep]
      have hWF' : ∀ x ∈ r :: init, RootWF x := by
        intro x hx
        refine hWF x ?_
        rw [hs]
        simp only [List.mem_cons, List.mem_append] at hx ⊢
        rcases hx with hx | hx
        · exact Or.inl hx
        · exact Or.inr (Or.inl hx)
      rw [ihk _ r init rfl hklen hWF']
      simp [List.reverse_append]

/-- C3: from a freshly loaded well-formed state, after N history-pushing
mutations (N within the 100-entry cap), N undos restore the root
configuration exactly, and N redos then restore the post-mutation root
configuration exactly. -/
theorem undo_redo_roundtrip (s0 : ManagerState) (ops : List Op)
    (hu : s0.undoStack = []) (_hr0 : s0.redoStack = [])
    (hres : s0.isRestoring = false) (hwf : RootWF s0.root)
    (hp : pushesAll s0 ops = true) (hlen : ops.length ≤ maxHistory) :
    (undoStep^[ops.length] (applyOps ops s0)).root = s0.root ∧
    (redoStep^[ops.length] (undoStep^[ops.length] (applyOps ops s0))).root =
      (applyOps ops s0).root := by
  have hchain := applyOps_chain ops s0 hres hwf hp (by rw [hu]; simpa using hlen)
  cases hops : ops with
  | nil =>
    subst hops
    exact ⟨rfl, rfl⟩
  | cons op rest =>
    subst hops
    have hstack : (applyOps (op :: rest) s0).undoStack =
        s0.root :: chainRoots (applyOp op s0) rest := by
      rw [hchain.1, hu]
      simp [chainRoots]
    have hlenstack : (chainRoots (applyOp op s0) rest).length + 1 =
        (op :: rest).length := by
      rw [chainRoots_length]
      simp
    have hWFchain : ∀ r ∈ chainRoots (applyOp op s0) rest, RootWF r := by
      intro r hr
      exact hchain.2.2.2.2 r (List.mem_cons_of_mem _ hr)
    have hWFstack : ∀ x ∈ (applyOps (op :: rest) s0).undoStack, RootWF x := by
      intro x hx
      rw [hstack] at hx
      rcases List.mem_cons.mp hx with hx | hx
      · rw [hx]
        exact hwf
      · exact hWFchain x hx
    have hundo := undo_iter (op :: rest).length (applyOps (op :: rest) s0) s0.root
      (chainRoots (applyOp op s0) rest) hstack hlenstack hWFstack
    have hredoempty : (applyOps (op :: rest) s0).redoStack = [] :=
      hchain.2.1 (by simp)
    rw [hredoempty] at hundo
    simp only [List.nil_append] at hundo
    refine ⟨by rw [hundo], ?_⟩
    rw [hundo]
    have hlen2 : ((chainRoots (applyOp op s0) rest).reverse).length + 1 =
        (op :: rest).length := by
      rw [List.length_reverse, chainRoots_length]
      simp
    have hWF2 : ∀ x ∈ (applyOps (op :: rest) s0).root ::
        (chainRoots (applyOp op s0) rest).reverse, RootWF x := by
      intro x hx
      rcases List.mem_cons.mp hx with hx | hx
      · rw [hx]
        exact hchain.2.2.2.1
      · exact hWFchain x (List.mem_reverse.mp hx)
    rw [redo_iter (op :: rest).length _ (applyOps (op :: rest) s0).root
      ((chainRoots (applyOp op s0) rest).reverse) rfl hlen2 hWF2]

/-- Witness for C3: two pushing mutations (a card add and a view-mode
change) on a fresh default state, undone twice and redone twice. -/
theorem undo_redo_roundtrip_witness :
    (emptyState.undoStack = [] ∧ emptyState.redoStack = [] ∧
      emptyState.isRestoring = false ∧ RootWF emptyState.root ∧
      pushesAll emptyState [Op.addCard "a.md" "id1", Op.setViewMode ViewMode.freeform] = true ∧
      ([Op.addCard "a.md" "id1", Op.setViewMode ViewMode.freeform] : List Op).length ≤
        maxHistory) ∧
    (undoStep^[2] (applyOps [Op.addCard "a.md" "id1", Op.setViewMode ViewMode.freeform]
        emptyState)).root = emptyState.root ∧
    (redoStep^[2] (undoStep^[2] (applyOps
        [Op.addCard "a.md" "id1", Op.setViewMode ViewMode.freeform] emptyState))).root =
      (applyOps [Op.addCard "a.md" "id1", Op.setViewMode ViewMode.freeform]
        emptyState).root := by
  have h1 : emptyState.undoStack = [] := rfl
  have h2 : emptyState.redoStack = [] := rfl
  have h3 : emptyState.isRestoring = false := rfl
  have h4 : RootWF emptyState.root := by
    constructor
    · decide
    · decide
  have h5 : pushesAll emptyState
      [Op.addCard "a.md" "id1", Op.setViewMode ViewMode.freeform] = true := by
    decide
  have h6 : ([Op.addCard "a.md" "id1", Op.setViewMode ViewMode.freeform] : List Op).length ≤
      maxHistory := by
    decide
  exact ⟨⟨h1, h2, h3, h4, h5, h6⟩,
    undo_redo_roundtrip emptyState [Op.addCard "a.md" "id1", Op.setViewMode ViewMode.freeform]
      h1 h2 h3 h4 h5 h6⟩

end Corkboard
